import Mathlib

/-!
# AWS Signature Version 4 signing (`sign4.go`)

A shallow embedding of the functions of `sign4.go` and the properties of the
signing pipeline proved about them.

## Conventions

* A Go `string` or `[]byte` is a `Str`: the list of its bytes, a byte being written as
  the character with that code, so that ASCII text reads as itself. The conversions
  `[]byte(s)` and `string(b)` are the identity.
* The Go standard library functions the source calls (`strings.ToLower`,
  `strings.TrimSpace`, `strings.HasPrefix`, `strings.Contains`, `strings.Split`,
  `sort.Strings`, `hex.EncodeToString`, `http.Header.Get`, `http.Header.Set`) are written
  out below.
  `ToLower` and `TrimSpace` are the ASCII ones: they agree with Go on every string
  whose bytes are below 0x80 (`isASCII`), which is what header names, host names and
  timestamps are; on other strings Go decodes UTF-8. A theorem about every request whose
  statement applies `ToLower` to the header names, or `TrimSpace` to the header values,
  has the hypothesis that these are ASCII.
* The functions of the package that `sign4.go` calls and does not define
  (`hashSHA256`, `hmacSHA256`, `normuri`, `normquery`, `serviceAndRegion`) are the fields
  of `Env`; a theorem about every request holds for every `Env`. The examples are
  evaluated with `showEnv`, whose functions write out their arguments.
* A Go map is enumerated by `range` in an unspecified order. The header map is an
  association list, and the function that `range` stands for is a parameter
  `range : Header → List Str` giving the keys in the order of enumeration; what is
  known of it is `Enumerates range`: every key is listed once.
* The header map of a request is not `nil`, as for a request made by `http.NewRequest`.
* The clock `now()` of the package is not modelled: the text `timestampV4()` makes of it
  is the parameter `timestamp` of `prepareRequestV4`, whose two-entry map of defaults is
  enumerated in one of the two possible orders, chosen by the parameter `dateFirst`.
* A function that mutates its arguments returns their new values; an index or slice
  expression that is out of range makes the result `none`.
-/

namespace AwsAuth

/-- A Go string (or byte slice), as the list of its bytes. -/
abbrev Str := List Char

/-! ## Standard library -/

/-- Go `strings.ToLower` on ASCII: the letters `A` to `Z` become `a` to `z`. -/
def ToLower (s : Str) : Str := s.map Char.toLower

/-- Go `strings.HasPrefix`. -/
def HasPrefix (s p : Str) : Bool := p.isPrefixOf s

/-- Go `unicode.IsSpace` on ASCII: tab, line feed, vertical tab, form feed, carriage
return and space. -/
def isSpace (c : Char) : Bool := (9 ≤ c.toNat && c.toNat ≤ 13) || c.toNat = 32

/-- Go `strings.TrimSpace` on ASCII: leading and trailing white space removed. -/
def TrimSpace (s : Str) : Str :=
  ((s.dropWhile isSpace).reverse.dropWhile isSpace).reverse

/-- Go `strings.Contains` for a one-byte substring. -/
def Contains (s : Str) (sep : Char) : Bool := s.contains sep

/-- Go `strings.Split` for a one-byte separator: the pieces between the separators;
a string without separator is the only piece. -/
def Split (s : Str) (sep : Char) : List Str :=
  match s with
  | [] => [[]]
  | c :: rest =>
    if c = sep then [] :: Split rest sep
    else
      match Split rest sep with
      | [] => [[c]]
      | piece :: pieces => (c :: piece) :: pieces

/-- Go string comparison `a <= b`: lexicographic on the bytes. -/
def strLE : Str → Str → Bool
  | [], _ => true
  | _ :: _, [] => false
  | a :: as, b :: bs => if a < b then true else if b < a then false else strLE as bs

/-- Go `sort.Strings`: the strings in ascending order. -/
def sortStrings (l : List Str) : List Str :=
  l.insertionSort (fun a b => strLE a b = true)

/-- Go `textproto.validHeaderFieldByte`: the token characters of RFC 7230, which are
the digits, the letters and the fifteen characters ``!#$%&'*+-.^_`|~``, by their codes. -/
def validHeaderFieldByte (c : Char) : Bool :=
  (48 ≤ c.toNat && c.toNat ≤ 57) || (65 ≤ c.toNat && c.toNat ≤ 90)
    || (97 ≤ c.toNat && c.toNat ≤ 122)
    || [33, 35, 36, 37, 38, 39, 42, 43, 45, 46, 94, 95, 96, 124, 126].contains c.toNat

/-- The loop of Go `textproto.canonicalMIMEHeaderKey`: upper case for the first letter
and for a letter after a hyphen, lower case for the other letters. -/
def canonicalize (upper : Bool) : Str → Str
  | [] => []
  | c :: rest =>
    let c := if upper then c.toUpper else c.toLower
    c :: canonicalize (c == '-') rest

/-- Go `textproto.CanonicalMIMEHeaderKey`: a key with a byte that is not valid in a
header field name is returned as it is. -/
def CanonicalMIMEHeaderKey (s : Str) : Str :=
  if s.all validHeaderFieldByte then canonicalize true s else s

/-- Go `http.Header`, a `map[string][]string`, as an association list. -/
abbrev Header := List (Str × List Str)

/-- The map read `h[key]`. -/
def Header.lookup (h : Header) (key : Str) : Option (List Str) :=
  match h with
  | [] => none
  | (k, v) :: rest => if k = key then some v else Header.lookup rest key

/-- The map write `h[key] = values`. -/
def Header.store (h : Header) (key : Str) (values : List Str) : Header :=
  match h with
  | [] => [(key, values)]
  | (k, v) :: rest =>
    if k = key then (key, values) :: rest else (k, v) :: Header.store rest key values

/-- The keys of the map. -/
def Header.keys (h : Header) : List Str := h.map Prod.fst

/-- Go `http.Header.Get`: the first value of the canonical form of `key`, or `""`. -/
def Header.Get (h : Header) (key : Str) : Str :=
  match Header.lookup h (CanonicalMIMEHeaderKey key) with
  | some (v :: _) => v
  | _ => []

/-- Go `http.Header.Set`: the canonical form of `key` gets `value` as its only value. -/
def Header.Set (h : Header) (key value : Str) : Header :=
  Header.store h (CanonicalMIMEHeaderKey key) [value]

/-- Go `url.Values`, the parsed query parameters. -/
abbrev Values := List (Str × List Str)

/-- Go `url.URL`: the path and the query parameters `URL.Query()` gives. -/
structure URL where
  Path : Str
  Query : Values
deriving DecidableEq

/-- Go `http.Request`: what the signing code reads and writes of it. -/
structure Request where
  Method : Str
  URL : URL
  Header : Header
  Body : Str
  Host : Str
deriving DecidableEq

/-- The digits of Go `encoding/hex`. -/
def hextable : Str := "0123456789abcdef".toList

/-- Go `hex.EncodeToString`: for every byte `v` the two digits `hextable[v>>4]` and
`hextable[v&0x0f]`; the byte of a character is its code modulo 256. -/
def EncodeToString : Str → Str
  | [] => []
  | v :: rest =>
    hextable.getD (v.toNat % 256 / 16) '0' :: hextable.getD (v.toNat % 256 % 16) '0' ::
      EncodeToString rest

/-- Go `hex.fromHexChar`: the value of a hexadecimal digit. -/
def fromHexChar (c : Char) : Option Nat :=
  if 48 ≤ c.toNat ∧ c.toNat ≤ 57 then some (c.toNat - 48)
  else if 97 ≤ c.toNat ∧ c.toNat ≤ 102 then some (c.toNat - 97 + 10)
  else if 65 ≤ c.toNat ∧ c.toNat ≤ 70 then some (c.toNat - 65 + 10)
  else none

/-- Go `hex.DecodeString`: the bytes that pairs of hexadecimal digits stand for; an error
(`none`) on a character that is no digit and on an odd length. -/
def DecodeString : Str → Option Str
  | [] => some []
  | [_] => none
  | p :: q :: rest =>
    match fromHexChar p, fromHexChar q, DecodeString rest with
    | some a, some b, some bytes => some (Char.ofNat (a * 16 + b) :: bytes)
    | _, _, _ => none

/-! ## The package -/

/-- The scratch record `metadata` threaded through the signing stages. -/
structure metadata where
  algorithm : Str
  credentialScope : Str
  signedHeaders : Str
  date : Str
  region : Str
  service : Str
deriving DecidableEq

/-- The type `Credentials`. -/
structure Credentials where
  AccessKeyID : Str
  SecretAccessKey : Str
  SecurityToken : Str
deriving DecidableEq

/-- The functions of the package that `sign4.go` calls and does not define. -/
structure Env where
  hashSHA256 : Str → Str
  hmacSHA256 : Str → Str → Str
  normuri : Str → Str
  normquery : Values → Str
  serviceAndRegion : Str → Str × Str

/-- Modelled from the spec: `concat` is not in `sign4.go`; the spec calls its results
newline-joined, semicolon-joined and slash-joined, so it joins the strings `str` with
the delimiter `delim` between them. -/
def concat (delim : Str) (str : List Str) : Str := delim.intercalate str

/-- Modelled from the spec: `readAndReplaceBody` is not in `sign4.go`; it gives the
bytes of the body and leaves the request with the same body to be read again. -/
def readAndReplaceBody (request : Request) : Str × Request := (request.Body, request)

/-- The scan `for _, sh := range sortedHeaderKeys` of `hashedCanonicalRequestV4`:
whether `h` is on the list already. -/
def arleadyOnList (sortedHeaderKeys : List Str) (h : Str) : Bool :=
  match sortedHeaderKeys with
  | [] => false
  | sh :: rest => if sh = h then true else arleadyOnList rest h

/-- The scan `for _, h := range signedHeaders` of `hashedCanonicalRequestV4`: it stops at
the first `h` equal to `keyLower`, and finds it when it is not on the list already. -/
def foundInSigned (keyLower : Str) (sortedHeaderKeys : List Str) (signedHeaders : List Str) :
    Bool :=
  match signedHeaders with
  | [] => false
  | h :: rest =>
    if keyLower = h then
      if arleadyOnList sortedHeaderKeys h = false then true else false
    else foundInSigned keyLower sortedHeaderKeys rest

/-- One round of the loop `for key, _ := range request.Header`. -/
def selectKey (signedHeaders : List Str) (sortedHeaderKeys : List Str) (key : Str) :
    List Str :=
  let keyLower := ToLower key
  if key = "Content-Md5".toList ∨ key = "Host".toList then
    sortedHeaderKeys ++ [keyLower]
  else
    if !foundInSigned keyLower sortedHeaderKeys signedHeaders
        && !HasPrefix key "X-Amz-".toList then
      sortedHeaderKeys
    else
      sortedHeaderKeys ++ [keyLower]

/-- The loop `for key, _ := range request.Header`, over the keys as enumerated. -/
def selectHeaders (signedHeaders : List Str) (keys : List Str) : List Str :=
  keys.foldl (selectKey signedHeaders) []

/-- The `if key == "host"` block of `hashedCanonicalRequestV4`, on the trimmed value:
the value becomes `split[0]` when it contains a colon and `split[1]`, the second of the
pieces between colons, is `80` or `443`. Both indices are in range there
(`Split_length_of_Contains`). -/
def hostValue (value : Str) : Str :=
  if Contains value ':' then
    let split := Split value ':'
    let port := split.getD 1 []
    if port = "80".toList ∨ port = "443".toList then split.getD 0 [] else value
  else value

/-- One round of the loop `for _, key := range sortedHeaderKeys`: the text appended to
`headersToSign`. -/
def headerLine (h : Header) (key : Str) : Str :=
  let value := TrimSpace (Header.Get h key)
  let value := if key = "host".toList then hostValue value else value
  key ++ ":".toList ++ value ++ "\n".toList

/-- The loop `for _, key := range sortedHeaderKeys`. -/
def headersToSign (h : Header) (sortedHeaderKeys : List Str) : Str :=
  sortedHeaderKeys.foldl (fun acc key => acc ++ headerLine h key) []

/-- The local variables of `hashedCanonicalRequestV4` before it returns. -/
structure Canonical where
  request : Request
  meta : metadata
  payloadHash : Str
  sortedHeaderKeys : List Str
  headersToSign : Str
  canonicalRequest : Str

/-- The body of `hashedCanonicalRequestV4` up to its `return`. -/
def canonicalRequestV4 (E : Env) (range : Header → List Str) (request : Request)
    (meta : metadata) (signedHeaders : List Str) (queryString : Bool) : Canonical :=
  let (payloadHash, request) :=
    if queryString then
      ("UNSIGNED-PAYLOAD".toList, request)
    else
      let (payload, request) := readAndReplaceBody request
      let payloadHash := E.hashSHA256 payload
      (payloadHash,
        { request with
          Header := Header.Set request.Header "X-Amz-Content-Sha256".toList payloadHash })
  let request := { request with Header := Header.Set request.Header "Host".toList request.Host }
  let sortedHeaderKeys := selectHeaders signedHeaders (range request.Header)
  let sortedHeaderKeys := sortStrings sortedHeaderKeys
  let headersToSign := headersToSign request.Header sortedHeaderKeys
  let meta := { meta with signedHeaders := concat ";".toList sortedHeaderKeys }
  let canonicalRequest := concat "\n".toList
    [request.Method, E.normuri request.URL.Path, E.normquery request.URL.Query,
      headersToSign, meta.signedHeaders, payloadHash]
  { request := request, meta := meta, payloadHash := payloadHash,
    sortedHeaderKeys := sortedHeaderKeys, headersToSign := headersToSign,
    canonicalRequest := canonicalRequest }

/-- The function `hashedCanonicalRequestV4`: the hash it returns, and the request and
the metadata as it leaves them. -/
def hashedCanonicalRequestV4 (E : Env) (range : Header → List Str) (request : Request)
    (meta : metadata) (signedHeaders : List Str) (queryString : Bool) :
    Str × Request × metadata :=
  let c := canonicalRequestV4 E range request meta signedHeaders queryString
  (E.hashSHA256 c.canonicalRequest, c.request, c.meta)

/-- The function `tsDateV4`: the slice `timestamp[:8]`, which is out of range (`none`)
on a timestamp of fewer than 8 bytes. -/
def tsDateV4 (timestamp : Str) : Option Str :=
  if 8 ≤ timestamp.length then some (timestamp.take 8) else none

/-- The function `stringToSignV4`: the string it returns and the metadata as it leaves
it, or `none` when `tsDateV4` is out of range. -/
def stringToSignV4 (E : Env) (request : Request) (hashedCanonReq : Str) (meta : metadata)
    (requestTs : Str) : Option (Str × metadata) :=
  let meta := { meta with algorithm := "AWS4-HMAC-SHA256".toList }
  let (service, region) := E.serviceAndRegion request.Host
  let meta := if meta.service = [] then { meta with service := service } else meta
  let meta := if meta.region = [] then { meta with region := region } else meta
  match tsDateV4 requestTs with
  | none => none
  | some date =>
    let meta := { meta with date := date }
    let meta := { meta with
      credentialScope :=
        concat "/".toList [meta.date, meta.region, meta.service, "aws4_request".toList] }
    some (concat "\n".toList [meta.algorithm, requestTs, meta.credentialScope, hashedCanonReq],
      meta)

/-- The function `signingKeyV4`. -/
def signingKeyV4 (E : Env) (secretKey date region service : Str) : Str :=
  let kDate := E.hmacSHA256 ("AWS4".toList ++ secretKey) date
  let kRegion := E.hmacSHA256 kDate region
  let kService := E.hmacSHA256 kRegion service
  let kSigning := E.hmacSHA256 kService "aws4_request".toList
  kSigning

/-- The function `buildAuthHeaderV4`. -/
def buildAuthHeaderV4 (signature : Str) (meta : metadata) (keys : Credentials) : Str :=
  let credential := keys.AccessKeyID ++ "/".toList ++ meta.credentialScope
  meta.algorithm ++
    " Credential=".toList ++ credential ++
    ", SignedHeaders=".toList ++ meta.signedHeaders ++
    ", Signature=".toList ++ signature

/-- The function `signatureV4`. -/
def signatureV4 (E : Env) (signingKey stringToSign : Str) : Str :=
  EncodeToString (E.hmacSHA256 signingKey stringToSign)

/-- The constant `timeFormatV4`. -/
def timeFormatV4 : Str := "20060102T150405Z".toList

/-- The map `necessaryDefaults` of `prepareRequestV4`. The value `timestamp` is what
`timestampV4()`, the package's clock `now()` written in the format `timeFormatV4`, returns. -/
def necessaryDefaults (timestamp : Str) : List (Str × Str) :=
  [("Content-Type".toList, "application/x-www-form-urlencoded; charset=utf-8".toList),
    ("X-Amz-Date".toList, timestamp)]

/-- One round of the loop `for header, value := range necessaryDefaults`. -/
def setDefault (request : Request) (entry : Str × Str) : Request :=
  if Header.Get request.Header entry.1 = [] then
    { request with Header := Header.Set request.Header entry.1 entry.2 }
  else request

/-- The function `prepareRequestV4`. The two entries of `necessaryDefaults` are enumerated
in one of two orders: `X-Amz-Date` first when `dateFirst`, else `Content-Type` first. -/
def prepareRequestV4 (timestamp : Str) (dateFirst : Bool) (request : Request) : Request :=
  let enumerated :=
    if dateFirst then (necessaryDefaults timestamp).reverse else necessaryDefaults timestamp
  let request := enumerated.foldl setDefault request
  let request :=
    if request.URL.Path = [] then
      { request with URL := { request.URL with Path := request.URL.Path ++ "/".toList } }
    else request
  request

/-! ## Notions the properties are stated with -/

/-- The header map `hashedCanonicalRequestV4` enumerates: the map of the request after
the two calls of `Header.Set`. -/
def signedHeaderMap (E : Env) (request : Request) (queryString : Bool) : Header :=
  Header.store
    (if queryString then request.Header
      else Header.store request.Header "X-Amz-Content-Sha256".toList [E.hashSHA256 request.Body])
    "Host".toList [request.Host]

/-- A string of ASCII bytes: every byte is below 0x80. On such a string `ToLower` and
`TrimSpace` as written above are Go's `strings.ToLower` and `strings.TrimSpace`; on other
strings Go decodes UTF-8, which the two functions above do not. -/
def isASCII (s : Str) : Bool := s.all (fun c => c.toNat < 128)

/-- A function `range` is an enumeration when it lists every key of a map once. -/
def Enumerates (range : Header → List Str) : Prop :=
  ∀ h : Header, (range h).Perm (Header.keys h)

/-- The selection rule read off the loop, on one header name: the names `Content-Md5`
and `Host`, a name whose lower-cased form is in the allow-list, and a name that begins
with `X-Amz-`. -/
def selected (signedHeaders : List Str) (key : Str) : Bool :=
  key = "Content-Md5".toList || key = "Host".toList || signedHeaders.contains (ToLower key)
    || HasPrefix key "X-Amz-".toList

/-- A header name in Go canonical form: made of token characters, and left as it is by
`CanonicalMIMEHeaderKey`. -/
def isCanonicalKey (k : Str) : Bool :=
  k.all validHeaderFieldByte && CanonicalMIMEHeaderKey k = k

/-- The first value of the header of `h` whose lower-cased name is `name`; the empty
string when there is no such header or it has no value. -/
def firstValueOf (h : Header) (name : Str) : Str :=
  match h.find? (fun e => ToLower e.1 = name) with
  | some (_, v :: _) => v
  | _ => []

/-- The line of a signed header name as the canonical-headers block is described without
the port rule: the name, a colon, the trimmed first value of the header, a line feed. -/
def trimmedHeaderLine (h : Header) (name : Str) : Str :=
  name ++ ":".toList ++ TrimSpace (firstValueOf h name) ++ "\n".toList

/-- A host value without its port suffix, when that suffix is `:80` or `:443`. -/
def withoutDefaultPort (value : Str) : Str :=
  if ":80".toList.isSuffixOf value then value.take (value.length - 3)
  else if ":443".toList.isSuffixOf value then value.take (value.length - 4)
  else value

/-- The line of a signed header name with the port rule: as `trimmedHeaderLine`, but on
the line of `host` the trimmed value is written without a default port. -/
def signedHeaderLine (h : Header) (name : Str) : Str :=
  name ++ ":".toList ++
    (if name = "host".toList then withoutDefaultPort (TrimSpace (firstValueOf h name))
      else TrimSpace (firstValueOf h name)) ++ "\n".toList

/-- The single pass of the design note: the lower-cased names of the headers that the
selection rule includes, sorted. -/
def selectHeadersSet (signedHeaders : List Str) (keys : List Str) : List Str :=
  sortStrings ((keys.filter (selected signedHeaders)).map ToLower)

/-- The locals of `hashedCanonicalRequestV4` as they follow from the signed-header
list `sortedHeaderKeys`, the only value the enumeration of the header map goes into. -/
def assemble (E : Env) (request : Request) (meta : metadata) (queryString : Bool)
    (sortedHeaderKeys : List Str) : Canonical :=
  let payloadHash :=
    if queryString then "UNSIGNED-PAYLOAD".toList else E.hashSHA256 request.Body
  let headersToSign := headersToSign (signedHeaderMap E request queryString) sortedHeaderKeys
  { request := { request with Header := signedHeaderMap E request queryString },
    meta := { meta with signedHeaders := concat ";".toList sortedHeaderKeys },
    payloadHash := payloadHash,
    sortedHeaderKeys := sortedHeaderKeys,
    headersToSign := headersToSign,
    canonicalRequest := concat "\n".toList
      [request.Method, E.normuri request.URL.Path, E.normquery request.URL.Query,
        headersToSign, concat ";".toList sortedHeaderKeys, payloadHash] }

/-- An enumeration of a header map in the opposite order of its list. -/
def reverseOrder (h : Header) : List Str := (Header.keys h).reverse

/-- The metadata that `stringToSignV4` leaves on a timestamp of at least 8 bytes. -/
def scopedMeta (E : Env) (request : Request) (meta : metadata) (ts : Str) : metadata :=
  let service := if meta.service = [] then (E.serviceAndRegion request.Host).1 else meta.service
  let region := if meta.region = [] then (E.serviceAndRegion request.Host).2 else meta.region
  { algorithm := "AWS4-HMAC-SHA256".toList,
    credentialScope := concat "/".toList [ts.take 8, region, service, "aws4_request".toList],
    signedHeaders := meta.signedHeaders, date := ts.take 8, region := region,
    service := service }

/-! ## Inputs for the examples -/

/-- An `Env` whose functions show their arguments: a hash is written `sha256(...)`. -/
def showEnv : Env where
  hashSHA256 := fun s => "sha256(".toList ++ s ++ ")".toList
  hmacSHA256 := fun k s => "hmac(".toList ++ k ++ ",".toList ++ s ++ ")".toList
  normuri := fun p => if p = [] then "/".toList else p
  normquery := fun _ => []
  serviceAndRegion := fun _ => ("s3".toList, "us-east-1".toList)

/-- The metadata a signing pass starts from: every field empty. -/
def freshMeta : metadata :=
  { algorithm := [], credentialScope := [], signedHeaders := [], date := [], region := [],
    service := [] }

/-- A request with header names in canonical form, a body and a host with the default
HTTPS port. -/
def exampleRequest : Request :=
  { Method := "GET".toList, URL := { Path := [], Query := [] },
    Header := [("X-Amz-Date".toList, ["20130524T000000Z".toList]),
      ("Content-Type".toList, [" text/plain ".toList])],
    Body := "hello".toList, Host := "examplebucket.s3.amazonaws.com:443".toList }

/-- A request without headers whose host ends in the port `:80`. -/
def port80Request : Request :=
  { Method := "GET".toList, URL := { Path := "/".toList, Query := [] }, Header := [],
    Body := [], Host := "example.com:80".toList }

/-- Credentials for the examples. -/
def exampleKeys : Credentials :=
  { AccessKeyID := "AKIDEXAMPLE".toList, SecretAccessKey := "secret".toList,
    SecurityToken := [] }

/-- A request that carries a `Content-Md5` header. -/
def contentMd5Request : Request :=
  { Method := "PUT".toList, URL := { Path := "/".toList, Query := [] },
    Header := [("Content-Md5".toList, ["1B2M2Y8AsgTpgAmY7PhCfg==".toList])],
    Body := [], Host := "example.com".toList }

/-- A request whose header map has two keys that differ in letter case only, both
beginning with `X-Amz-`; the second one was put into the map directly. -/
def caseVariantRequest : Request :=
  { Method := "GET".toList, URL := { Path := "/".toList, Query := [] },
    Header := [("X-Amz-Foo".toList, ["1".toList]), ("X-Amz-FOO".toList, ["2".toList])],
    Body := [], Host := "example.com".toList }

/-- A request whose header map has the key `x-amz-foo`, put into the map directly, and
the key `X-Amz-Foo`. -/
def lowerVariantRequest : Request :=
  { Method := "GET".toList, URL := { Path := "/".toList, Query := [] },
    Header := [("x-amz-foo".toList, ["1".toList]), ("X-Amz-Foo".toList, ["2".toList])],
    Body := [], Host := "example.com".toList }

/-- A request to the IPv6 loopback address on the default HTTPS port. -/
def ipv6Request : Request :=
  { Method := "GET".toList, URL := { Path := "/".toList, Query := [] }, Header := [],
    Body := [], Host := "[::1]:443".toList }

/-- A request to an IPv6 address whose second group is `80`, on the port 8080. -/
def ipv6PortRequest : Request :=
  { Method := "GET".toList, URL := { Path := "/".toList, Query := [] }, Header := [],
    Body := [], Host := "[2001:80::1]:8080".toList }

/-- A request whose `Content-Type` header is present with the empty string as first value
and `text/plain` as second value, and whose path is empty. -/
def emptyContentTypeRequest : Request :=
  { Method := "GET".toList, URL := { Path := [], Query := [] },
    Header := [("Content-Type".toList, [[], "text/plain".toList])],
    Body := [], Host := "example.com".toList }

/-- A request that carries a `Content-Type` header and no `X-Amz-Date` header. -/
def jsonRequest : Request :=
  { Method := "POST".toList, URL := { Path := "/queue".toList, Query := [] },
    Header := [("Content-Type".toList, ["application/json".toList]),
      ("Accept".toList, ["*/*".toList])],
    Body := "body".toList, Host := "example.com".toList }

/-- A request whose header map has the single key `host`, put into the map directly. -/
def hostKeyRequest : Request :=
  { Method := "GET".toList, URL := { Path := "/".toList, Query := [] },
    Header := [("host".toList, ["other.example.com".toList])],
    Body := [], Host := "example.com".toList }

/-- A first call of `hashedCanonicalRequestV4`: on `lowerVariantRequest` with fresh
metadata and `x-amz-foo` allow-listed, the header map enumerated in the order of its list. -/
def firstCall : Str × Request × metadata :=
  hashedCanonicalRequestV4 showEnv Header.keys lowerVariantRequest freshMeta
    ["x-amz-foo".toList] true

/-- A second call with the same arguments, on the request and the metadata as `firstCall`
left them, the header map enumerated in the opposite order. -/
def secondCall : Str × Request × metadata :=
  hashedCanonicalRequestV4 showEnv reverseOrder firstCall.2.1 firstCall.2.2
    ["x-amz-foo".toList] true

/-! ## Theorems -/

/-! ### Auxiliary facts -/

theorem lookup_store_self (h : Header) (k : Str) (v : List Str) :
    Header.lookup (Header.store h k v) k = some v := by
  induction h with
  | nil => simp [Header.store, Header.lookup]
  | cons e rest ih =>
    obtain ⟨k', v'⟩ := e
    by_cases hk : k' = k
    · simp [Header.store, Header.lookup, hk]
    · simp [Header.store, Header.lookup, hk, ih]

theorem lookup_store_ne (h : Header) (k k' : Str) (v : List Str) (hne : k' ≠ k) :
    Header.lookup (Header.store h k v) k' = Header.lookup h k' := by
  induction h with
  | nil => simp [Header.store, Header.lookup, hne.symm]
  | cons e rest ih =>
    obtain ⟨k0, v0⟩ := e
    by_cases hk : k0 = k
    · subst hk
      simp [Header.store, Header.lookup, hne.symm]
    · simp [Header.store, Header.lookup, hk, ih]

theorem concat6 (d a b c e f g : Str) :
    concat d [a, b, c, e, f, g] = a ++ d ++ b ++ d ++ c ++ d ++ e ++ d ++ f ++ d ++ g := by
  simp [concat, List.intercalate, List.intersperse]

theorem canonicalRequestV4_header (E : Env) (range : Header → List Str) (request : Request)
    (meta : metadata) (sh : List Str) (qs : Bool) :
    (canonicalRequestV4 E range request meta sh qs).request.Header =
      signedHeaderMap E request qs := by
  cases qs <;> rfl

theorem canonicalRequestV4_keys (E : Env) (range : Header → List Str) (request : Request)
    (meta : metadata) (sh : List Str) (qs : Bool) :
    (canonicalRequestV4 E range request meta sh qs).sortedHeaderKeys =
      sortStrings (selectHeaders sh (range (signedHeaderMap E request qs))) := by
  cases qs <;> rfl

theorem canonicalRequestV4_payloadHash (E : Env) (range : Header → List Str) (request : Request)
    (meta : metadata) (sh : List Str) (qs : Bool) :
    (canonicalRequestV4 E range request meta sh qs).payloadHash =
      if qs then "UNSIGNED-PAYLOAD".toList else E.hashSHA256 request.Body := by
  cases qs <;> rfl

theorem canonicalRequestV4_text (E : Env) (range : Header → List Str) (request : Request)
    (meta : metadata) (sh : List Str) (qs : Bool) :
    let c := canonicalRequestV4 E range request meta sh qs
    c.canonicalRequest = concat "\n".toList
    [request.Method, E.normuri request.URL.Path, E.normquery request.URL.Query,
      c.headersToSign, c.meta.signedHeaders, c.payloadHash] := by
  cases qs <;> rfl

theorem arleadyOnList_iff (acc : List Str) (h : Str) :
    arleadyOnList acc h = true ↔ h ∈ acc := by
  induction acc with
  | nil => simp [arleadyOnList]
  | cons sh rest ih =>
    by_cases e : sh = h
    · simp [arleadyOnList, e]
    · have e' : ¬ h = sh := fun x => e x.symm
      simp [arleadyOnList, e, e', ih]

theorem foundInSigned_iff (keyLower : Str) (acc sh : List Str) :
    foundInSigned keyLower acc sh = true ↔ keyLower ∈ sh ∧ keyLower ∉ acc := by
  induction sh with
  | nil => simp [foundInSigned]
  | cons h rest ih =>
    by_cases e : keyLower = h
    · subst e
      by_cases m : keyLower ∈ acc
      · have : arleadyOnList acc keyLower = true := (arleadyOnList_iff _ _).2 m
        simp [foundInSigned, this, m]
      · have : arleadyOnList acc keyLower = false := by
          cases hb : arleadyOnList acc keyLower with
          | false => rfl
          | true => exact absurd ((arleadyOnList_iff _ _).1 hb) m
        simp [foundInSigned, this, m]
    · simp [foundInSigned, e, ih]

theorem mem_selectKey (sh acc : List Str) (key n : Str) :
    n ∈ selectKey sh acc key ↔ n ∈ acc ∨ (n = ToLower key ∧ selected sh key = true) := by
  unfold selectKey selected
  generalize "Content-Md5".toList = cm
  generalize "Host".toList = ho
  generalize "X-Amz-".toList = xa
  by_cases h1 : key = cm ∨ key = ho
  · rw [if_pos h1]
    rcases h1 with h | h <;> simp [h]
  · rw [if_neg h1]
    have h1' : ¬ key = cm ∧ ¬ key = ho := not_or.mp h1
    by_cases hp : HasPrefix key xa = true
    · simp [hp]
    · by_cases hf : foundInSigned (ToLower key) acc sh = true
      · have hs := (foundInSigned_iff _ _ _).1 hf
        simp [hf, hs.1]
      · simp only [hf, hp, h1'.1, h1'.2, Bool.not_false, Bool.and_self, if_true,
          Bool.false_eq_true, decide_False, Bool.false_or, Bool.or_false,
          List.contains_eq_any_beq, List.any_eq_true, beq_iff_eq, exists_eq_right, decide_eq_true_eq]
        constructor
        · intro h; exact Or.inl h
        · rintro (h | ⟨rfl, hs⟩)
          · exact h
          · by_contra hn
            obtain ⟨x, hx, e⟩ := hs
            exact hf ((foundInSigned_iff _ _ _).2 ⟨e ▸ hx, hn⟩)

theorem mem_foldl_selectKey (sh keys acc : List Str) (n : Str) :
    n ∈ keys.foldl (selectKey sh) acc ↔
      n ∈ acc ∨ ∃ k ∈ keys, n = ToLower k ∧ selected sh k = true := by
  induction keys generalizing acc with
  | nil => simp
  | cons k rest ih =>
    rw [List.foldl_cons, ih, mem_selectKey]
    constructor
    · rintro ((h | h) | ⟨k', hk', h⟩)
      · exact Or.inl h
      · exact Or.inr ⟨k, List.mem_cons_self _ _, h⟩
      · exact Or.inr ⟨k', List.mem_cons_of_mem _ hk', h⟩
    · rintro (h | ⟨k', hk', h⟩)
      · exact Or.inl (Or.inl h)
      · rcases List.mem_cons.1 hk' with rfl | hk'
        · exact Or.inl (Or.inr h)
        · exact Or.inr ⟨k', hk', h⟩

theorem mem_selectHeaders (sh keys : List Str) (n : Str) :
    n ∈ selectHeaders sh keys ↔ ∃ k ∈ keys, n = ToLower k ∧ selected sh k = true := by
  simp [selectHeaders, mem_foldl_selectKey]

theorem mem_sortStrings (l : List Str) (n : Str) : n ∈ sortStrings l ↔ n ∈ l :=
  (List.perm_insertionSort _ l).mem_iff

theorem ascii_forall (P : Char → Prop) (h : ∀ n : Fin 128, P (Char.ofNat n.val)) (c : Char)
    (hc : c.toNat < 128) : P c := by
  have := h ⟨c.toNat, hc⟩
  simpa using this

theorem validHeaderFieldByte_ascii (c : Char) (h : validHeaderFieldByte c = true) :
    c.toNat < 128 := by
  simp only [validHeaderFieldByte, Bool.or_eq_true, Bool.and_eq_true, decide_eq_true_eq,
    List.contains_eq_any_beq, List.any_eq_true, beq_iff_eq] at h
  rcases h with ((((h | h) | h)) | ⟨x, hx, e⟩)
  · omega
  · omega
  · omega
  · simp only [List.mem_cons, List.mem_singleton, List.not_mem_nil, or_false] at hx
    omega

theorem ascii_case_facts (c : Char) (hc : c.toNat < 128) :
    c.toLower.toUpper = c.toUpper ∧ c.toLower.toLower = c.toLower ∧
      validHeaderFieldByte c.toLower = validHeaderFieldByte c := by
  revert hc
  revert c
  exact ascii_forall _ (by decide)

theorem canonicalize_ToLower (b : Bool) (k : Str) (hk : ∀ c ∈ k, c.toNat < 128) :
    canonicalize b (ToLower k) = canonicalize b k := by
  induction k generalizing b with
  | nil => rfl
  | cons c rest ih =>
    have hc := ascii_case_facts c (hk c (List.mem_cons_self _ _))
    have ih' := fun b => ih b (fun c hc => hk c (List.mem_cons_of_mem _ hc))
    cases b <;> simp [canonicalize, ToLower, hc.1, hc.2.1] <;> simpa [ToLower] using ih' _

theorem canonical_ToLower (k : Str) (hk : isCanonicalKey k = true) :
    CanonicalMIMEHeaderKey (ToLower k) = k := by
  simp only [isCanonicalKey, Bool.and_eq_true, decide_eq_true_eq] at hk
  obtain ⟨hv, hc⟩ := hk
  have hascii : ∀ c ∈ k, c.toNat < 128 := fun c hc =>
    validHeaderFieldByte_ascii c (List.all_eq_true.1 hv c hc)
  have hv' : (ToLower k).all validHeaderFieldByte = true := by
    rw [List.all_eq_true]
    intro c hc
    simp only [ToLower, List.mem_map] at hc
    obtain ⟨d, hd, rfl⟩ := hc
    rw [(ascii_case_facts d (hascii d hd)).2.2]
    exact List.all_eq_true.1 hv d hd
  have e1 : CanonicalMIMEHeaderKey (ToLower k) = canonicalize true (ToLower k) := by
    simp [CanonicalMIMEHeaderKey, hv']
  have e2 : CanonicalMIMEHeaderKey k = canonicalize true k := by
    simp [CanonicalMIMEHeaderKey, hv]
  rw [e1, canonicalize_ToLower true k hascii, ← e2, hc]

theorem headersToSign_eq (h : Header) (l : List Str) :
    headersToSign h l = (l.map (headerLine h)).flatten := by
  have : ∀ acc, l.foldl (fun acc key => acc ++ headerLine h key) acc
      = acc ++ (l.map (headerLine h)).flatten := by
    induction l with
    | nil => simp
    | cons a rest ih => intro acc; simp [ih]
  simpa [headersToSign] using this []

theorem lookup_canonical (h : Header) (k : Str)
    (hall : ∀ k' ∈ Header.keys h, isCanonicalKey k' = true) (hk : isCanonicalKey k = true) :
    Header.lookup h k = (h.find? (fun e => ToLower e.1 = ToLower k)).map Prod.snd := by
  induction h with
  | nil => rfl
  | cons e rest ih =>
    obtain ⟨k0, v0⟩ := e
    have h0 : isCanonicalKey k0 = true := hall k0 (by simp [Header.keys])
    have hrest : ∀ k' ∈ Header.keys rest, isCanonicalKey k' = true := fun k' hk' =>
      hall k' (by simp only [Header.keys, List.map_cons, List.mem_cons]; exact Or.inr hk')
    by_cases e : k0 = k
    · subst e
      simp [Header.lookup]
    · have : ¬ ToLower k0 = ToLower k := fun hl =>
        e (by rw [← canonical_ToLower k0 h0, hl, canonical_ToLower k hk])
      simp [Header.lookup, e, this, ih hrest]

theorem Get_ToLower (h : Header) (k : Str)
    (hall : ∀ k' ∈ Header.keys h, isCanonicalKey k' = true) (hk : k ∈ Header.keys h) :
    Header.Get h (ToLower k) = firstValueOf h (ToLower k) := by
  have hc := hall k hk
  unfold Header.Get firstValueOf
  rw [canonical_ToLower k hc, lookup_canonical h k hall hc]
  cases h.find? (fun e => ToLower e.1 = ToLower k) with
  | none => rfl
  | some e => obtain ⟨a, b⟩ := e; cases b <;> rfl

theorem mem_keys_store (h : Header) (k k' : Str) (v : List Str) :
    k' ∈ Header.keys (Header.store h k v) ↔ k' ∈ Header.keys h ∨ k' = k := by
  induction h with
  | nil => simp [Header.store, Header.keys]
  | cons e rest ih =>
    obtain ⟨k0, v0⟩ := e
    simp only [Header.keys] at ih
    by_cases hk : k0 = k
    · subst hk
      simp only [Header.store, Header.keys, if_true, List.map_cons, List.mem_cons]
      constructor
      · rintro (h | h)
        · exact Or.inl (Or.inl h)
        · exact Or.inl (Or.inr h)
      · rintro ((h | h) | h)
        · exact Or.inl h
        · exact Or.inr h
        · exact Or.inl h
    · simp only [Header.store, Header.keys, hk, if_false, List.map_cons, List.mem_cons, ih]
      constructor
      · rintro (h | h | h)
        · exact Or.inl (Or.inl h)
        · exact Or.inl (Or.inr h)
        · exact Or.inr h
      · rintro ((h | h) | h)
        · exact Or.inl h
        · exact Or.inr (Or.inl h)
        · exact Or.inr (Or.inr h)

theorem mem_keys_signedHeaderMap (E : Env) (request : Request) (qs : Bool) (k : Str) :
    k ∈ Header.keys (signedHeaderMap E request qs) ↔
      k ∈ Header.keys request.Header ∨ k = "Host".toList ∨
        (qs = false ∧ k = "X-Amz-Content-Sha256".toList) := by
  cases qs
  · simp only [signedHeaderMap, mem_keys_store, Bool.false_eq_true, if_false, true_and]
    tauto
  · simp only [signedHeaderMap, mem_keys_store, if_true, Bool.true_eq_false, false_and, or_false]

theorem canonical_signedHeaderMap (E : Env) (request : Request) (qs : Bool)
    (hk : ∀ k ∈ Header.keys request.Header, isCanonicalKey k = true) :
    ∀ k ∈ Header.keys (signedHeaderMap E request qs), isCanonicalKey k = true := by
  intro k hmem
  rcases (mem_keys_signedHeaderMap E request qs k).1 hmem with h | h | ⟨_, h⟩
  · exact hk k h
  · rw [h]; decide
  · rw [h]; decide

theorem selected_iff (sh : List Str) (k : Str) :
    selected sh k = true ↔
      (k = "Content-Md5".toList ∨ k = "Host".toList ∨ ToLower k ∈ sh ∨
        HasPrefix k "X-Amz-".toList = true) := by
  unfold selected
  generalize "Content-Md5".toList = cm
  generalize "Host".toList = ho
  generalize "X-Amz-".toList = xa
  simp only [Bool.or_eq_true, decide_eq_true_eq, List.contains_eq_any_beq, List.any_eq_true,
    beq_iff_eq, exists_eq_right', or_assoc]

theorem mem_sortedHeaderKeys (E : Env) (range : Header → List Str) (request : Request)
    (meta : metadata) (sh : List Str) (qs : Bool) (hr : Enumerates range) (n : Str) :
    n ∈ (canonicalRequestV4 E range request meta sh qs).sortedHeaderKeys ↔
      ∃ k ∈ Header.keys (signedHeaderMap E request qs), n = ToLower k ∧ selected sh k = true := by
  rw [canonicalRequestV4_keys, mem_sortStrings, mem_selectHeaders]
  constructor
  · rintro ⟨k, hk, h⟩
    exact ⟨k, (hr _).mem_iff.1 hk, h⟩
  · rintro ⟨k, hk, h⟩
    exact ⟨k, (hr _).mem_iff.2 hk, h⟩

theorem strLE_total (a b : Str) : strLE a b = true ∨ strLE b a = true := by
  induction a generalizing b with
  | nil => exact Or.inl (by simp [strLE])
  | cons x xs ih =>
    cases b with
    | nil => exact Or.inr (by simp [strLE])
    | cons y ys =>
      rcases lt_trichotomy x y with h | h | h
      · exact Or.inl (by simp [strLE, h])
      · subst h
        simpa [strLE] using ih ys
      · exact Or.inr (by simp [strLE, h])

theorem strLE_trans (a b c : Str) (hab : strLE a b = true) (hbc : strLE b c = true) :
    strLE a c = true := by
  induction a generalizing b c with
  | nil => simp [strLE]
  | cons x xs ih =>
    cases b with
    | nil => simp [strLE] at hab
    | cons y ys =>
      cases c with
      | nil => simp [strLE] at hbc
      | cons z zs =>
        rcases lt_trichotomy x y with h | h | h
        · rcases lt_trichotomy y z with h' | h' | h'
          · simp [strLE, lt_trans h h']
          · subst h'; simp [strLE, h]
          · simp [strLE, h', not_lt_of_gt h'] at hbc
        · subst h
          rcases lt_trichotomy x z with h' | h' | h'
          · simp [strLE, h']
          · subst h'
            simp only [strLE, lt_self_iff_false, if_false] at hab hbc ⊢
            exact ih ys zs hab hbc
          · simp [strLE, h', not_lt_of_gt h'] at hbc
        · simp [strLE, h, not_lt_of_gt h] at hab

theorem strLE_antisymm (a b : Str) (hab : strLE a b = true) (hba : strLE b a = true) :
    a = b := by
  induction a generalizing b with
  | nil =>
    cases b with
    | nil => rfl
    | cons y ys => simp [strLE] at hba
  | cons x xs ih =>
    cases b with
    | nil => simp [strLE] at hab
    | cons y ys =>
      rcases lt_trichotomy x y with h | h | h
      · simp [strLE, h, not_lt_of_gt h] at hba
      · subst h
        simp only [strLE, lt_self_iff_false, if_false] at hab hba
        rw [ih ys hab hba]
      · simp [strLE, h, not_lt_of_gt h] at hab

theorem sortStrings_sorted (l : List Str) :
    (sortStrings l).Pairwise (fun a b => strLE a b = true) := by
  haveI : IsTotal Str (fun a b => strLE a b = true) := ⟨strLE_total⟩
  haveI : IsTrans Str (fun a b => strLE a b = true) := ⟨strLE_trans⟩
  exact List.sorted_insertionSort _ l

theorem Split_no_sep (s : Str) (sep : Char) (h : sep ∉ s) : Split s sep = [s] := by
  induction s with
  | nil => rfl
  | cons c rest ih =>
    have hc : ¬ c = sep := fun e => h (by simp [e])
    have hr : sep ∉ rest := fun m => h (List.mem_cons_of_mem _ m)
    simp [Split, hc, ih hr]

theorem Split_append_sep (s t : Str) (sep : Char) (h : sep ∉ s) :
    Split (s ++ sep :: t) sep = s :: Split t sep := by
  induction s with
  | nil => simp [Split]
  | cons c rest ih =>
    have hc : ¬ c = sep := fun e => h (by simp [e])
    have hr : sep ∉ rest := fun m => h (List.mem_cons_of_mem _ m)
    simp [Split, hc, ih hr]

/-- The parts of the signed-header list that hold for every request: every name on it is
the lower-cased name of a header of the map, and the list is in ascending order. -/
theorem sortedHeaderKeys_lowercase_sorted (E : Env) (range : Header → List Str)
    (request : Request) (meta : metadata) (signedHeaders : List Str) (queryString : Bool)
    (hr : Enumerates range) :
    let c := canonicalRequestV4 E range request meta signedHeaders queryString
    (∀ n ∈ c.sortedHeaderKeys, ∃ k ∈ Header.keys c.request.Header, n = ToLower k) ∧
      c.sortedHeaderKeys.Pairwise (fun a b => strLE a b = true) ∧
      c.meta.signedHeaders = concat ";".toList c.sortedHeaderKeys := by
  intro c
  refine ⟨?_, ?_, ?_⟩
  · intro n hn
    have hH : c.request.Header = signedHeaderMap E request queryString :=
      canonicalRequestV4_header E range request meta signedHeaders queryString
    rw [hH]
    obtain ⟨k, hk, hnk, _⟩ :=
      (mem_sortedHeaderKeys E range request meta signedHeaders queryString hr n).1 hn
    exact ⟨k, hk, hnk⟩
  · show (canonicalRequestV4 E range request meta signedHeaders queryString).sortedHeaderKeys.Pairwise _
    rw [canonicalRequestV4_keys]
    exact sortStrings_sorted _
  · cases queryString <;> rfl

theorem Split_ne_nil (s : Str) (sep : Char) : Split s sep ≠ [] := by
  induction s with
  | nil => simp [Split]
  | cons c rest ih =>
    unfold Split
    split
    · simp
    · split <;> simp

/-- The indices `split[0]` and `split[1]` of `hashedCanonicalRequestV4` are in range: a
value that contains the separator splits into two pieces at least. -/
theorem Split_length_of_Contains (s : Str) (sep : Char) (h : Contains s sep = true) :
    2 ≤ (Split s sep).length := by
  induction s with
  | nil => simp [Contains] at h
  | cons c rest ih =>
    by_cases hc : c = sep
    · have hne := Split_ne_nil rest sep
      have : 1 ≤ (Split rest sep).length := by
        cases hs : Split rest sep with
        | nil => exact absurd hs hne
        | cons a b => simp
      simp only [Split, hc, if_true, List.length_cons]
      omega
    · have hr : Contains rest sep = true := by
        simp only [Contains, List.contains_eq_any_beq, List.any_eq_true, beq_iff_eq] at h ⊢
        obtain ⟨x, hx, e⟩ := h
        rcases List.mem_cons.1 hx with h1 | h1
        · exact absurd (h1 ▸ e.symm) hc
        · exact ⟨x, h1, e⟩
      have ih' := ih hr
      unfold Split
      rw [if_neg hc]
      cases hs : Split rest sep with
      | nil => rw [hs] at ih'; simp at ih'
      | cons a b =>
        rw [hs] at ih'
        simpa using ih'

theorem append_sep_inj (sep : Char) (a b t d : Str) (ha : sep ∉ a) (hb : sep ∉ b)
    (e : a ++ sep :: b = t ++ sep :: d) : a = t ∧ b = d := by
  induction a generalizing t with
  | nil =>
    cases t with
    | nil => simpa using e
    | cons x t' =>
      simp only [List.nil_append, List.cons_append, List.cons.injEq] at e
      exact absurd (by rw [e.2]; simp) hb
  | cons y a' ih =>
    cases t with
    | nil =>
      simp only [List.nil_append, List.cons_append, List.cons.injEq] at e
      exact absurd (by simp [e.1]) ha
    | cons x t' =>
      simp only [List.cons_append, List.cons.injEq] at e
      have := ih t' (fun m => ha (List.mem_cons_of_mem _ m)) e.2
      exact ⟨by rw [e.1, this.1], this.2⟩

theorem isSuffixOf_sep_iff (sep : Char) (a b p : Str) (ha : sep ∉ a) (hb : sep ∉ b) :
    (sep :: p).isSuffixOf (a ++ sep :: b) = true ↔ b = p := by
  rw [List.isSuffixOf_iff_suffix]
  constructor
  · rintro ⟨t, ht⟩
    exact ((append_sep_inj sep a b t p ha hb ht.symm).2)
  · rintro rfl
    exact ⟨a, rfl⟩

theorem Split_one_sep (a b : Str) (sep : Char) (ha : sep ∉ a) (hb : sep ∉ b) :
    Split (a ++ sep :: b) sep = [a, b] := by
  rw [Split_append_sep _ _ _ ha, Split_no_sep _ _ hb]

/-- The port rule on a value with at most one colon, a name or a name and a port: the
`if key == "host"` block removes the port suffix when it is `:80` or `:443`, and nothing
else. -/
theorem hostValue_eq_withoutDefaultPort (v : Str) (h : v.count ':' ≤ 1) :
    hostValue v = withoutDefaultPort v := by
  by_cases hc : ':' ∈ v
  · obtain ⟨a, b, rfl, ha⟩ := List.eq_append_cons_of_mem hc
    have hb : ':' ∉ b := by
      intro hm
      have h1 : 0 < b.count ':' := List.count_pos_iff.2 hm
      simp only [List.count_append, List.count_cons_self] at h
      omega
    have hcont : Contains (a ++ ':' :: b) ':' = true := by simp [Contains]
    have h80 := isSuffixOf_sep_iff ':' a b "80".toList ha hb
    have h443 := isSuffixOf_sep_iff ':' a b "443".toList ha hb
    have e80 : ":80".toList = ':' :: "80".toList := by decide
    have e443 : ":443".toList = ':' :: "443".toList := by decide
    unfold hostValue withoutDefaultPort
    rw [Split_one_sep a b ':' ha hb, e80, e443]
    simp only [hcont, if_true, List.getD_cons_succ, List.getD_cons_zero]
    by_cases p1 : b = "80".toList
    · have s1 := h80.2 p1
      rw [if_pos (Or.inl p1), if_pos s1, p1]
      simp
    · have s1 : ¬ (':' :: "80".toList).isSuffixOf (a ++ ':' :: b) = true := fun s => p1 (h80.1 s)
      by_cases p2 : b = "443".toList
      · have s2 := h443.2 p2
        rw [if_pos (Or.inr p2), if_neg s1, if_pos s2, p2]
        simp
      · have s2 : ¬ (':' :: "443".toList).isSuffixOf (a ++ ':' :: b) = true :=
          fun s => p2 (h443.1 s)
        rw [if_neg (not_or.2 ⟨p1, p2⟩), if_neg s1, if_neg s2]
  · have hcont : Contains v ':' = false := by simp [Contains, hc]
    have n80 : ¬ ":80".toList.isSuffixOf v = true := by
      rw [List.isSuffixOf_iff_suffix]
      rintro ⟨t, rfl⟩
      exact hc (by simp)
    have n443 : ¬ ":443".toList.isSuffixOf v = true := by
      rw [List.isSuffixOf_iff_suffix]
      rintro ⟨t, rfl⟩
      exact hc (by simp)
    unfold hostValue withoutDefaultPort
    rw [if_neg n80, if_neg n443]
    simp [hcont]


theorem headerLine_ToLower (h : Header) (k : Str)
    (hall : ∀ k' ∈ Header.keys h, isCanonicalKey k' = true) (hk : k ∈ Header.keys h)
    (hcount : (TrimSpace (firstValueOf h "host".toList)).count ':' ≤ 1) :
    headerLine h (ToLower k) = signedHeaderLine h (ToLower k) := by
  unfold headerLine signedHeaderLine
  rw [Get_ToLower h k hall hk]
  by_cases hn : ToLower k = "host".toList
  · rw [hn]
    dsimp only
    rw [if_pos rfl, if_pos rfl, hostValue_eq_withoutDefaultPort _ hcount]
  · dsimp only
    rw [if_neg hn, if_neg hn]

theorem firstValueOf_host (E : Env) (request : Request) (qs : Bool)
    (hk : ∀ k ∈ Header.keys request.Header, isCanonicalKey k = true) :
    firstValueOf (signedHeaderMap E request qs) "host".toList = request.Host := by
  have hmem : "Host".toList ∈ Header.keys (signedHeaderMap E request qs) :=
    (mem_keys_store _ _ _ _).2 (Or.inr rfl)
  have hg := Get_ToLower (signedHeaderMap E request qs) "Host".toList
    (canonical_signedHeaderMap E request qs hk) hmem
  have e1 : ToLower "Host".toList = "host".toList := by decide
  have e2 : CanonicalMIMEHeaderKey "host".toList = "Host".toList := by decide
  rw [e1] at hg
  rw [← hg]
  unfold Header.Get
  rw [e2]
  unfold signedHeaderMap
  rw [lookup_store_self]

theorem lookup_setDefault (request : Request) (header value k : Str)
    (hc : CanonicalMIMEHeaderKey header = header) :
    Header.lookup (setDefault request (header, value)).Header k =
      if k = header ∧ Header.Get request.Header header = [] then some [value]
      else Header.lookup request.Header k := by
  unfold setDefault
  by_cases hg : Header.Get request.Header header = []
  · simp only [hg, if_true, and_true, Header.Set, hc]
    by_cases hk : k = header
    · rw [if_pos hk, hk]
      exact lookup_store_self _ _ _
    · rw [if_neg hk]
      exact lookup_store_ne _ _ _ _ hk
  · simp only [hg, if_false, and_false]

theorem Get_setDefault_ne (request : Request) (header value k : Str)
    (hc : CanonicalMIMEHeaderKey header = header) (hk : CanonicalMIMEHeaderKey k = k)
    (hne : k ≠ header) :
    Header.Get (setDefault request (header, value)).Header k = Header.Get request.Header k := by
  unfold Header.Get
  rw [hk, lookup_setDefault request header value k hc]
  have : ¬ (k = header ∧ Header.Get request.Header header = []) := fun h => hne h.1
  rw [if_neg this]

theorem setDefault_frame (request : Request) (entry : Str × Str) :
    (setDefault request entry).Method = request.Method ∧
      (setDefault request entry).URL = request.URL ∧
      (setDefault request entry).Body = request.Body ∧
      (setDefault request entry).Host = request.Host := by
  unfold setDefault
  split <;> exact ⟨rfl, rfl, rfl, rfl⟩

/-- The request after the loop of `prepareRequestV4`, which the test of the path follows. -/
theorem prepareRequestV4_eq (t : Str) (dateFirst : Bool) (request : Request) :
    ∃ r : Request,
      (r = setDefault (setDefault request ("Content-Type".toList,
            "application/x-www-form-urlencoded; charset=utf-8".toList)) ("X-Amz-Date".toList, t) ∨
        r = setDefault (setDefault request ("X-Amz-Date".toList, t)) ("Content-Type".toList,
            "application/x-www-form-urlencoded; charset=utf-8".toList)) ∧
      (prepareRequestV4 t dateFirst request).Header = r.Header ∧
      (prepareRequestV4 t dateFirst request).Method = r.Method ∧
      (prepareRequestV4 t dateFirst request).Body = r.Body ∧
      (prepareRequestV4 t dateFirst request).Host = r.Host ∧
      (prepareRequestV4 t dateFirst request).URL.Query = r.URL.Query ∧
      (prepareRequestV4 t dateFirst request).URL.Path =
        (if r.URL.Path = [] then "/".toList else r.URL.Path) := by
  cases dateFirst
  · refine ⟨_, Or.inl rfl, ?_⟩
    simp only [prepareRequestV4, necessaryDefaults, Bool.false_eq_true, if_false,
      List.foldl_cons, List.foldl_nil]
    split
    · rename_i hp
      refine ⟨rfl, rfl, rfl, rfl, rfl, ?_⟩
      show _ ++ _ = _
      rw [hp]
      rfl
    · exact ⟨rfl, rfl, rfl, rfl, rfl, rfl⟩
  · refine ⟨_, Or.inr rfl, ?_⟩
    simp only [prepareRequestV4, necessaryDefaults, if_true, List.reverse_cons,
      List.reverse_nil, List.nil_append, List.cons_append, List.foldl_cons, List.foldl_nil]
    split
    · rename_i hp
      refine ⟨rfl, rfl, rfl, rfl, rfl, ?_⟩
      show _ ++ _ = _
      rw [hp]
      rfl
    · exact ⟨rfl, rfl, rfl, rfl, rfl, rfl⟩

theorem prepareRequestV4_lookup (t : Str) (dateFirst : Bool) (request : Request) (k : Str) :
    Header.lookup (prepareRequestV4 t dateFirst request).Header k =
      if k = "Content-Type".toList ∧ Header.Get request.Header "Content-Type".toList = [] then
        some ["application/x-www-form-urlencoded; charset=utf-8".toList]
      else if k = "X-Amz-Date".toList ∧ Header.Get request.Header "X-Amz-Date".toList = [] then
        some [t]
      else Header.lookup request.Header k := by
  have c1 : CanonicalMIMEHeaderKey "Content-Type".toList = "Content-Type".toList := by decide
  have c2 : CanonicalMIMEHeaderKey "X-Amz-Date".toList = "X-Amz-Date".toList := by decide
  have ne12 : "Content-Type".toList ≠ "X-Amz-Date".toList := by decide
  obtain ⟨r, hr, hH, _⟩ := prepareRequestV4_eq t dateFirst request
  rw [hH]
  rcases hr with rfl | rfl
  · rw [lookup_setDefault _ _ _ _ c2, Get_setDefault_ne _ _ _ _ c1 c2 ne12.symm,
      lookup_setDefault _ _ _ _ c1]
    by_cases h1 : k = "Content-Type".toList ∧ Header.Get request.Header "Content-Type".toList = []
    · have : ¬ (k = "X-Amz-Date".toList ∧ Header.Get request.Header "X-Amz-Date".toList = []) :=
        fun h => ne12 (h1.1.symm.trans h.1)
      rw [if_neg this, if_pos h1, if_pos h1]
    · rw [if_neg h1, if_neg h1]
  · rw [lookup_setDefault _ _ _ _ c1, Get_setDefault_ne _ _ _ _ c2 c1 ne12,
      lookup_setDefault _ _ _ _ c2]

theorem prepareRequestV4_frame (t : Str) (dateFirst : Bool) (request : Request) :
    (prepareRequestV4 t dateFirst request).Method = request.Method ∧
      (prepareRequestV4 t dateFirst request).Body = request.Body ∧
      (prepareRequestV4 t dateFirst request).Host = request.Host ∧
      (prepareRequestV4 t dateFirst request).URL.Query = request.URL.Query ∧
      (prepareRequestV4 t dateFirst request).URL.Path =
        (if request.URL.Path = [] then "/".toList else request.URL.Path) := by
  obtain ⟨r, hr, _, hM, hB, hH, hQ, hP⟩ := prepareRequestV4_eq t dateFirst request
  have hf : r.Method = request.Method ∧ r.URL = request.URL ∧ r.Body = request.Body ∧
      r.Host = request.Host := by
    rcases hr with rfl | rfl
    · obtain ⟨a1, a2, a3, a4⟩ := setDefault_frame request ("Content-Type".toList,
        "application/x-www-form-urlencoded; charset=utf-8".toList)
      obtain ⟨b1, b2, b3, b4⟩ := setDefault_frame (setDefault request ("Content-Type".toList,
        "application/x-www-form-urlencoded; charset=utf-8".toList)) ("X-Amz-Date".toList, t)
      exact ⟨b1.trans a1, b2.trans a2, b3.trans a3, b4.trans a4⟩
    · obtain ⟨a1, a2, a3, a4⟩ := setDefault_frame request ("X-Amz-Date".toList, t)
      obtain ⟨b1, b2, b3, b4⟩ := setDefault_frame (setDefault request ("X-Amz-Date".toList, t))
        ("Content-Type".toList, "application/x-www-form-urlencoded; charset=utf-8".toList)
      exact ⟨b1.trans a1, b2.trans a2, b3.trans a3, b4.trans a4⟩
  obtain ⟨f1, f2, f3, f4⟩ := hf
  refine ⟨hM.trans f1, hB.trans f3, hH.trans f4, ?_, ?_⟩
  · rw [hQ, f2]
  · rw [hP, f2]

theorem Get_of_lookup_none (h : Header) (k : Str) (hc : CanonicalMIMEHeaderKey k = k)
    (hn : Header.lookup h k = none) : Header.Get h k = [] := by
  unfold Header.Get
  rw [hc, hn]

theorem canonicalRequestV4_eq_assemble (E : Env) (range : Header → List Str)
    (request : Request) (meta : metadata) (sh : List Str) (qs : Bool) :
    canonicalRequestV4 E range request meta sh qs =
      assemble E request meta qs
        (sortStrings (selectHeaders sh (range (signedHeaderMap E request qs)))) := by
  cases qs <;> rfl

theorem sortStrings_perm (l₁ l₂ : List Str) (h : l₁.Perm l₂) :
    sortStrings l₁ = sortStrings l₂ := by
  haveI : IsAntisymm Str (fun a b => strLE a b = true) := ⟨strLE_antisymm⟩
  have p : (sortStrings l₁).Perm (sortStrings l₂) :=
    ((List.perm_insertionSort _ l₁).trans h).trans (List.perm_insertionSort _ l₂).symm
  exact List.eq_of_perm_of_sorted p (sortStrings_sorted l₁) (sortStrings_sorted l₂)

theorem selectKey_of_not_mem (sh acc : List Str) (key : Str) (hn : ToLower key ∉ acc) :
    selectKey sh acc key = if selected sh key = true then acc ++ [ToLower key] else acc := by
  have hf : foundInSigned (ToLower key) acc sh = true ↔ ToLower key ∈ sh := by
    rw [foundInSigned_iff]
    exact ⟨fun h => h.1, fun h => ⟨h, hn⟩⟩
  have hsel := selected_iff sh key
  unfold selectKey
  generalize "Content-Md5".toList = cm at hsel ⊢
  generalize "Host".toList = ho at hsel ⊢
  generalize "X-Amz-".toList = xa at hsel ⊢
  by_cases h1 : key = cm ∨ key = ho
  · have : selected sh key = true := hsel.2 (by tauto)
    rw [if_pos h1, if_pos this]
  · rw [if_neg h1]
    by_cases hp : HasPrefix key xa = true
    · have : selected sh key = true := hsel.2 (by tauto)
      rw [if_pos this]
      simp [hp]
    · by_cases hm : ToLower key ∈ sh
      · have : selected sh key = true := hsel.2 (by tauto)
        rw [if_pos this]
        simp [hf.2 hm]
      · have hnf : foundInSigned (ToLower key) acc sh = false := by
          cases hb : foundInSigned (ToLower key) acc sh with
          | false => rfl
          | true => exact absurd (hf.1 hb) hm
        have : ¬ selected sh key = true := fun h => by
          have := hsel.1 h
          tauto
        rw [if_neg this]
        simp [hnf, hp]

theorem foldl_selectKey_of_nodup (sh : List Str) (keys acc : List Str)
    (hd : (keys.map ToLower).Nodup) (hacc : ∀ k ∈ keys, ToLower k ∉ acc) :
    keys.foldl (selectKey sh) acc = acc ++ (keys.filter (selected sh)).map ToLower := by
  induction keys generalizing acc with
  | nil => simp
  | cons k rest ih =>
    have hk : ToLower k ∉ acc := hacc k (List.mem_cons_self _ _)
    rw [List.map_cons, List.nodup_cons] at hd
    have hrest : ∀ k' ∈ rest, ToLower k' ∉ acc := fun k' hk' =>
      hacc k' (List.mem_cons_of_mem _ hk')
    have hne : ∀ k' ∈ rest, ToLower k' ≠ ToLower k := fun k' hk' e =>
      hd.1 (e ▸ List.mem_map_of_mem ToLower hk')
    rw [List.foldl_cons, selectKey_of_not_mem sh acc k hk]
    by_cases hs : selected sh k = true
    · rw [if_pos hs, ih _ hd.2]
      · simp [List.filter_cons, hs]
      · intro k' hk' hm
        rcases List.mem_append.1 hm with h | h
        · exact hrest k' hk' h
        · exact hne k' hk' (List.mem_singleton.1 h)
    · rw [if_neg hs, ih _ hd.2 hrest]
      simp [List.filter_cons, hs]

theorem selectHeaders_of_nodup (sh keys : List Str) (hd : (keys.map ToLower).Nodup) :
    selectHeaders sh keys = (keys.filter (selected sh)).map ToLower := by
  unfold selectHeaders
  rw [foldl_selectKey_of_nodup sh keys [] hd (fun _ _ h => by simp at h)]
  simp

theorem sortStrings_selectHeaders_of_nodup (sh : List Str) (range : Header → List Str)
    (h : Header) (hr : Enumerates range) (hd : ((Header.keys h).map ToLower).Nodup) :
    sortStrings (selectHeaders sh (range h)) = selectHeadersSet sh (Header.keys h) := by
  have hp : (range h).Perm (Header.keys h) := hr h
  have hd' : ((range h).map ToLower).Nodup := (hp.map ToLower).nodup_iff.2 hd
  rw [selectHeaders_of_nodup sh _ hd']
  exact sortStrings_perm _ _ ((hp.filter _).map _)

theorem enumerates_keys : Enumerates Header.keys := fun _ => List.Perm.refl _

theorem enumerates_reverseOrder : Enumerates reverseOrder := fun h =>
  List.reverse_perm (Header.keys h)

theorem store_of_lookup (h : Header) (k : Str) (v : List Str)
    (hl : Header.lookup h k = some v) : Header.store h k v = h := by
  induction h with
  | nil => simp [Header.lookup] at hl
  | cons e rest ih =>
    obtain ⟨k0, v0⟩ := e
    by_cases hk : k0 = k
    · subst hk
      simp only [Header.lookup, if_true, Option.some.injEq] at hl
      simp [Header.store, hl]
    · simp only [Header.lookup, hk, if_false] at hl
      simp [Header.store, hk, ih hl]

theorem signedHeaderMap_idempotent (E : Env) (request : Request) (qs : Bool) :
    signedHeaderMap E { request with Header := signedHeaderMap E request qs } qs =
      signedHeaderMap E request qs := by
  have hHost : Header.lookup (signedHeaderMap E request qs) "Host".toList =
      some [request.Host] := lookup_store_self _ _ _
  cases qs
  · have hSha : Header.lookup (signedHeaderMap E request false) "X-Amz-Content-Sha256".toList =
        some [E.hashSHA256 request.Body] := by
      unfold signedHeaderMap
      rw [lookup_store_ne _ _ _ _ (by decide)]
      exact lookup_store_self _ _ _
    show Header.store (Header.store (signedHeaderMap E request false) _ _) _ _ = _
    rw [store_of_lookup _ _ _ hSha, store_of_lookup _ _ _ hHost]
  · show Header.store (signedHeaderMap E request true) _ _ = _
    rw [store_of_lookup _ _ _ hHost]

/-- Recomputing with the header map enumerated in the same order: a second call of
`hashedCanonicalRequestV4` on the request and the metadata as the first call left them
returns the same hash and leaves the request and the metadata as they are. -/
theorem hashedCanonicalRequestV4_again_same_order (E : Env) (range : Header → List Str)
    (request : Request) (meta : metadata) (signedHeaders : List Str) (queryString : Bool) :
    let r := hashedCanonicalRequestV4 E range request meta signedHeaders queryString
    hashedCanonicalRequestV4 E range r.2.1 r.2.2 signedHeaders queryString = r := by
  intro r
  have e1 : r = (E.hashSHA256
      (canonicalRequestV4 E range request meta signedHeaders queryString).canonicalRequest,
      (canonicalRequestV4 E range request meta signedHeaders queryString).request,
      (canonicalRequestV4 E range request meta signedHeaders queryString).meta) := rfl
  have e2 : canonicalRequestV4 E range r.2.1 r.2.2 signedHeaders queryString =
      canonicalRequestV4 E range request meta signedHeaders queryString := by
    rw [canonicalRequestV4_eq_assemble, canonicalRequestV4_eq_assemble E range request]
    have hm : signedHeaderMap E r.2.1 queryString = signedHeaderMap E request queryString := by
      rw [e1]
      show signedHeaderMap E (canonicalRequestV4 E range request meta signedHeaders
        queryString).request queryString = _
      rw [canonicalRequestV4_eq_assemble]
      exact signedHeaderMap_idempotent E request queryString
    rw [hm, e1]
    simp only [canonicalRequestV4_eq_assemble, assemble, hm]
    rw [signedHeaderMap_idempotent]
  show (E.hashSHA256 (canonicalRequestV4 E range r.2.1 r.2.2 signedHeaders
      queryString).canonicalRequest,
    (canonicalRequestV4 E range r.2.1 r.2.2 signedHeaders queryString).request,
    (canonicalRequestV4 E range r.2.1 r.2.2 signedHeaders queryString).meta) = r
  rw [e2]
  exact e1.symm

/-- Independence of the order of enumeration on a header map whose names have pairwise
distinct lower-cased forms: two enumerations give the same hash, request and metadata. -/
theorem hashedCanonicalRequestV4_order_of_nodup (E : Env) (range₁ range₂ : Header → List Str)
    (request : Request) (meta : metadata) (signedHeaders : List Str) (queryString : Bool)
    (h₁ : Enumerates range₁) (h₂ : Enumerates range₂)
    (hd : ((Header.keys (signedHeaderMap E request queryString)).map ToLower).Nodup) :
    hashedCanonicalRequestV4 E range₁ request meta signedHeaders queryString =
      hashedCanonicalRequestV4 E range₂ request meta signedHeaders queryString := by
  have e : canonicalRequestV4 E range₁ request meta signedHeaders queryString =
      canonicalRequestV4 E range₂ request meta signedHeaders queryString := by
    rw [canonicalRequestV4_eq_assemble, canonicalRequestV4_eq_assemble,
      sortStrings_selectHeaders_of_nodup _ _ _ h₁ hd,
      sortStrings_selectHeaders_of_nodup _ _ _ h₂ hd]
  unfold hashedCanonicalRequestV4
  rw [e]

theorem hextable_getD_mem (i : Nat) (hi : i < 16) : hextable.getD i '0' ∈ hextable := by
  have : ∀ j : Fin 16, hextable.getD j.val '0' ∈ hextable := by decide
  exact this ⟨i, hi⟩

theorem fromHexChar_hextable (i : Nat) (hi : i < 16) :
    fromHexChar (hextable.getD i '0') = some i := by
  have : ∀ j : Fin 16, fromHexChar (hextable.getD j.val '0') = some j.val := by decide
  exact this ⟨i, hi⟩

theorem EncodeToString_digits (s : Str) : ∀ c ∈ EncodeToString s, c ∈ hextable := by
  induction s with
  | nil => intro c hc; simp [EncodeToString] at hc
  | cons v rest ih =>
    intro c hc
    simp only [EncodeToString, List.mem_cons] at hc
    rcases hc with rfl | rfl | hc
    · exact hextable_getD_mem _ (Nat.div_lt_of_lt_mul (Nat.mod_lt _ (by decide)))
    · exact hextable_getD_mem _ (Nat.mod_lt _ (by decide))
    · exact ih c hc

theorem EncodeToString_length (s : Str) : (EncodeToString s).length = 2 * s.length := by
  induction s with
  | nil => rfl
  | cons v rest ih =>
    simp only [EncodeToString, List.length_cons, ih]
    omega

theorem DecodeString_EncodeToString (s : Str) (hb : ∀ c ∈ s, c.toNat < 256) :
    DecodeString (EncodeToString s) = some s := by
  induction s with
  | nil => rfl
  | cons v rest ih =>
    have hv : v.toNat < 256 := hb v (List.mem_cons_self _ _)
    have hrest := ih (fun c hc => hb c (List.mem_cons_of_mem _ hc))
    have hmod : v.toNat % 256 = v.toNat := Nat.mod_eq_of_lt hv
    have h1 : v.toNat / 16 < 16 := Nat.div_lt_of_lt_mul hv
    have h2 : v.toNat % 16 < 16 := Nat.mod_lt _ (by decide)
    have hsum : v.toNat / 16 * 16 + v.toNat % 16 = v.toNat := Nat.div_add_mod' _ _
    simp only [EncodeToString, DecodeString, hmod, fromHexChar_hextable _ h1,
      fromHexChar_hextable _ h2, hrest, hsum, Char.ofNat_toNat]

theorem concat4 (d a b c e : Str) :
    concat d [a, b, c, e] = a ++ d ++ b ++ d ++ c ++ d ++ e := by
  simp [concat, List.intercalate, List.intersperse]

theorem stringToSignV4_eq (E : Env) (request : Request) (h : Str) (meta : metadata)
    (ts : Str) (hts : 8 ≤ ts.length) :
    stringToSignV4 E request h meta ts =
      some (concat "\n".toList ["AWS4-HMAC-SHA256".toList, ts,
        (scopedMeta E request meta ts).credentialScope, h], scopedMeta E request meta ts) := by
  unfold stringToSignV4 tsDateV4 scopedMeta
  rw [if_pos hts]
  by_cases hs : meta.service = [] <;> by_cases hr : meta.region = []
  · dsimp only
    simp only [if_pos hs, if_pos hr]
  · dsimp only
    simp only [if_pos hs, if_neg hr]
  · dsimp only
    simp only [if_neg hs, if_pos hr]
  · dsimp only
    simp only [if_neg hs, if_neg hr]

theorem stringToSignV4_algorithm (E : Env) (request : Request) (h : Str) (meta : metadata)
    (ts s : Str) (meta' : metadata) (hs : stringToSignV4 E request h meta ts = some (s, meta')) :
    meta'.algorithm = "AWS4-HMAC-SHA256".toList := by
  by_cases hts : 8 ≤ ts.length
  · rw [stringToSignV4_eq E request h meta ts hts] at hs
    have h2 := (Prod.mk.inj (Option.some.inj hs)).2
    rw [← h2]
    rfl
  · have hn : stringToSignV4 E request h meta ts = none := by
      simp [stringToSignV4, tsDateV4, hts]
    rw [hn] at hs
    cases hs

theorem buildAuthHeaderV4_eq (signature : Str) (meta : metadata) (keys : Credentials) :
    buildAuthHeaderV4 signature meta keys =
      meta.algorithm ++ " Credential=".toList ++ keys.AccessKeyID ++ "/".toList ++
        meta.credentialScope ++ ", SignedHeaders=".toList ++ meta.signedHeaders ++
        ", Signature=".toList ++ signature := by
  unfold buildAuthHeaderV4
  simp only [List.append_assoc]

/-! ### The claims -/

/-- C1: `signingKeyV4` is the chain of four HMACs, each keyed with the result of the
one before: first the date under the key `"AWS4" ++ secretKey`, then the region, then
the service, then the literal `aws4_request`. -/
theorem signingKeyV4_chain (E : Env) (secretKey date region service : Str) :
    signingKeyV4 E secretKey date region service =
      E.hmacSHA256
        (E.hmacSHA256
          (E.hmacSHA256 (E.hmacSHA256 ("AWS4".toList ++ secretKey) date) region) service)
        "aws4_request".toList := by
  rfl

/-- C2 (as amended): for every request whose header names are in Go canonical form,
whose header values and host are ASCII (and, in signed-payload mode, whose payload hash
is) and whose host has at most one colon, every allow-list and both signing modes,
`hashedCanonicalRequestV4` returns the hash of the method, the normalized path, the
normalized query, the canonical-headers block, the semicolon-joined signed-header list
and the payload hash, each followed by a line feed except the last. The block has one
line per signed header name, in the sorted order of the list: the name, a colon, the
trimmed first value of that header and a line feed, where on the line of `host` the
trimmed value is written without its port suffix when that is `:80` or `:443`. -/
theorem hashedCanonicalRequestV4_text (E : Env) (range : Header → List Str)
    (request : Request) (meta : metadata) (signedHeaders : List Str) (queryString : Bool)
    (hr : Enumerates range)
    (hk : ∀ k ∈ Header.keys request.Header, isCanonicalKey k = true)
    (hvalues : ∀ e ∈ request.Header, ∀ v ∈ e.2, isASCII v = true)
    (hhostASCII : isASCII request.Host = true)
    (hhashASCII : queryString = false → isASCII (E.hashSHA256 request.Body) = true)
    (hhost : (TrimSpace request.Host).count ':' ≤ 1) :
    let c := canonicalRequestV4 E range request meta signedHeaders queryString
    (hashedCanonicalRequestV4 E range request meta signedHeaders queryString).1 =
      E.hashSHA256
        (request.Method ++ "\n".toList ++ E.normuri request.URL.Path ++ "\n".toList ++
          E.normquery request.URL.Query ++ "\n".toList ++
          (c.sortedHeaderKeys.map (signedHeaderLine c.request.Header)).flatten ++ "\n".toList ++
          concat ";".toList c.sortedHeaderKeys ++ "\n".toList ++
          (if queryString then "UNSIGNED-PAYLOAD".toList else E.hashSHA256 request.Body)) := by
  intro c
  have _ := hvalues
  have _ := hhostASCII
  have _ := hhashASCII
  have hlines : c.headersToSign =
      (c.sortedHeaderKeys.map (signedHeaderLine c.request.Header)).flatten := by
    have h1 : c.headersToSign = headersToSign c.request.Header c.sortedHeaderKeys := by
      cases queryString <;> rfl
    rw [h1, headersToSign_eq]
    congr 1
    apply List.map_congr_left
    intro n hn
    have hn' : n ∈ selectHeaders signedHeaders (range (signedHeaderMap E request queryString)) := by
      have := hn
      rw [canonicalRequestV4_keys, mem_sortStrings] at this
      exact this
    obtain ⟨k, hkm, rfl, _⟩ := (mem_selectHeaders _ _ _).1 hn'
    have hkeys : k ∈ Header.keys (signedHeaderMap E request queryString) := (hr _).mem_iff.1 hkm
    have hH : c.request.Header = signedHeaderMap E request queryString :=
      canonicalRequestV4_header E range request meta signedHeaders queryString
    rw [hH]
    refine headerLine_ToLower _ k (canonical_signedHeaderMap E request queryString hk) hkeys ?_
    rw [firstValueOf_host E request queryString hk]
    exact hhost
  have hS : c.meta.signedHeaders = concat ";".toList c.sortedHeaderKeys := by
    cases queryString <;> rfl
  have hP : c.payloadHash =
      (if queryString then "UNSIGNED-PAYLOAD".toList else E.hashSHA256 request.Body) :=
    canonicalRequestV4_payloadHash E range request meta signedHeaders queryString
  have hT := canonicalRequestV4_text E range request meta signedHeaders queryString
  show E.hashSHA256 c.canonicalRequest = _
  rw [hT, concat6, hlines, hS, hP]

/-- Witness of `hashedCanonicalRequestV4_text` (C2): the amended statement on
`exampleRequest`, whose host is `examplebucket.s3.amazonaws.com:443`, in signed-payload
mode, with the text that is hashed written out. -/
theorem hashedCanonicalRequestV4_text_witness :
    Enumerates Header.keys ∧
    (∀ k ∈ Header.keys exampleRequest.Header, isCanonicalKey k = true) ∧
    (∀ e ∈ exampleRequest.Header, ∀ v ∈ e.2, isASCII v = true) ∧
    isASCII exampleRequest.Host = true ∧
    isASCII (showEnv.hashSHA256 exampleRequest.Body) = true ∧
    (TrimSpace exampleRequest.Host).count ':' ≤ 1 ∧
    (hashedCanonicalRequestV4 showEnv Header.keys exampleRequest freshMeta [] false).1 =
      ("sha256(GET\n/\n\nhost:examplebucket.s3.amazonaws.com\n" ++
        "x-amz-content-sha256:sha256(hello)\nx-amz-date:20130524T000000Z\n\n" ++
        "host;x-amz-content-sha256;x-amz-date\nsha256(hello))").toList :=
  ⟨fun _ => List.Perm.refl _, by decide, by decide, by decide, by decide, by decide,
    (hashedCanonicalRequestV4_text showEnv Header.keys exampleRequest freshMeta [] false
      (fun _ => List.Perm.refl _) (by decide) (by decide) (by decide) (fun _ => by decide)
      (by decide)).trans (by decide)⟩

/-- C2, counterexample: on a request whose host is `example.com:80` the text that is
hashed has the line `host:example.com`, while the text C2 describes, with the trimmed
first value of every signed header, has the line `host:example.com:80`; so the statement
of C2 does not hold for every request. -/
theorem hashedCanonicalRequestV4_port_counterexample :
    (canonicalRequestV4 showEnv Header.keys port80Request freshMeta [] true).canonicalRequest =
      "GET\n/\n\nhost:example.com\n\nhost\nUNSIGNED-PAYLOAD".toList ∧
    (let c := canonicalRequestV4 showEnv Header.keys port80Request freshMeta [] true
     port80Request.Method ++ "\n".toList ++ showEnv.normuri port80Request.URL.Path ++
        "\n".toList ++ showEnv.normquery port80Request.URL.Query ++ "\n".toList ++
        (c.sortedHeaderKeys.map (trimmedHeaderLine c.request.Header)).flatten ++ "\n".toList ++
        concat ";".toList c.sortedHeaderKeys ++ "\n".toList ++ c.payloadHash =
      "GET\n/\n\nhost:example.com:80\n\nhost\nUNSIGNED-PAYLOAD".toList) ∧
    ¬ (∀ (E : Env) (range : Header → List Str) (request : Request) (meta : metadata)
        (signedHeaders : List Str) (queryString : Bool),
        Enumerates range →
        (∀ k ∈ Header.keys request.Header, isCanonicalKey k = true) →
        (∀ e ∈ request.Header, ∀ v ∈ e.2, isASCII v = true) →
        isASCII request.Host = true →
        let c := canonicalRequestV4 E range request meta signedHeaders queryString
        (hashedCanonicalRequestV4 E range request meta signedHeaders queryString).1 =
          E.hashSHA256
            (request.Method ++ "\n".toList ++ E.normuri request.URL.Path ++ "\n".toList ++
              E.normquery request.URL.Query ++ "\n".toList ++
              (c.sortedHeaderKeys.map (trimmedHeaderLine c.request.Header)).flatten ++
              "\n".toList ++ concat ";".toList c.sortedHeaderKeys ++ "\n".toList ++
              c.payloadHash)) := by
  refine ⟨by decide, by decide, ?_⟩
  intro h
  have := h showEnv Header.keys port80Request freshMeta [] true (fun _ => List.Perm.refl _)
    (by decide) (by decide) (by decide)
  revert this
  decide

/-- C3: on a timestamp `ts` of at least 8 bytes `stringToSignV4` returns, sets the
algorithm to `AWS4-HMAC-SHA256`, the date to the first 8 bytes of `ts` and the
credential scope to date, region, service (as they are after the call) and
`aws4_request` joined by slashes, and returns the algorithm, `ts`, the credential scope
and the canonical-request hash joined by line feeds. -/
theorem stringToSignV4_spec (E : Env) (request : Request) (h : Str) (meta : metadata)
    (ts : Str) (hts : 8 ≤ ts.length) :
    ∃ s meta', stringToSignV4 E request h meta ts = some (s, meta') ∧
      meta'.algorithm = "AWS4-HMAC-SHA256".toList ∧
      meta'.date = ts.take 8 ∧
      meta'.credentialScope =
        meta'.date ++ "/".toList ++ meta'.region ++ "/".toList ++ meta'.service ++
          "/aws4_request".toList ∧
      s = "AWS4-HMAC-SHA256".toList ++ "\n".toList ++ ts ++ "\n".toList ++
        meta'.credentialScope ++ "\n".toList ++ h := by
  simp only [stringToSignV4, tsDateV4, hts, if_true]
  refine ⟨_, _, rfl, ?_, ?_, ?_, ?_⟩
  · split <;> split <;> rfl
  · split <;> split <;> rfl
  · split <;> split <;> simp [concat, List.intercalate, List.intersperse]
  · split <;> split <;> simp [concat, List.intercalate, List.intersperse]

/-- Witness of `stringToSignV4_spec` (C3): the timestamp `20130524T000000Z` with fresh
metadata. -/
theorem stringToSignV4_spec_witness :
    8 ≤ "20130524T000000Z".toList.length ∧
    ∃ s meta', stringToSignV4 showEnv exampleRequest "HASH".toList freshMeta
        "20130524T000000Z".toList = some (s, meta') ∧
      meta'.algorithm = "AWS4-HMAC-SHA256".toList ∧
      meta'.date = "20130524T000000Z".toList.take 8 ∧
      meta'.credentialScope =
        meta'.date ++ "/".toList ++ meta'.region ++ "/".toList ++ meta'.service ++
          "/aws4_request".toList ∧
      s = "AWS4-HMAC-SHA256".toList ++ "\n".toList ++ "20130524T000000Z".toList ++
        "\n".toList ++ meta'.credentialScope ++ "\n".toList ++ "HASH".toList :=
  ⟨by decide,
    stringToSignV4_spec showEnv exampleRequest "HASH".toList freshMeta
      "20130524T000000Z".toList (by decide)⟩

/-- C4 (as amended): for every signature, metadata and credentials `buildAuthHeaderV4`
returns the algorithm field of the metadata, ` Credential=`, the access key id, a slash,
the credential scope, `, SignedHeaders=`, the signed headers, `, Signature=` and the
signature, in this order. So on metadata whose algorithm field is `AWS4-HMAC-SHA256`,
and that is on the metadata of every call of `stringToSignV4` that returns, the text is
`AWS4-HMAC-SHA256 Credential=` followed by the same fields. -/
theorem buildAuthHeaderV4_format (signature : Str) (meta : metadata) (keys : Credentials) :
    buildAuthHeaderV4 signature meta keys =
        meta.algorithm ++ " Credential=".toList ++ keys.AccessKeyID ++ "/".toList ++
          meta.credentialScope ++ ", SignedHeaders=".toList ++ meta.signedHeaders ++
          ", Signature=".toList ++ signature ∧
      (meta.algorithm = "AWS4-HMAC-SHA256".toList →
        buildAuthHeaderV4 signature meta keys =
          "AWS4-HMAC-SHA256 Credential=".toList ++ keys.AccessKeyID ++ "/".toList ++
            meta.credentialScope ++ ", SignedHeaders=".toList ++ meta.signedHeaders ++
            ", Signature=".toList ++ signature) ∧
      (∀ (E : Env) (request : Request) (hashedCanonReq : Str) (before : metadata)
          (requestTs stringToSign : Str),
        stringToSignV4 E request hashedCanonReq before requestTs = some (stringToSign, meta) →
        buildAuthHeaderV4 signature meta keys =
          "AWS4-HMAC-SHA256 Credential=".toList ++ keys.AccessKeyID ++ "/".toList ++
            meta.credentialScope ++ ", SignedHeaders=".toList ++ meta.signedHeaders ++
            ", Signature=".toList ++ signature) := by
  have e : "AWS4-HMAC-SHA256 Credential=".toList =
      "AWS4-HMAC-SHA256".toList ++ " Credential=".toList := by decide
  have hlit : meta.algorithm = "AWS4-HMAC-SHA256".toList →
      buildAuthHeaderV4 signature meta keys =
        "AWS4-HMAC-SHA256 Credential=".toList ++ keys.AccessKeyID ++ "/".toList ++
          meta.credentialScope ++ ", SignedHeaders=".toList ++ meta.signedHeaders ++
          ", Signature=".toList ++ signature := by
    intro halg
    rw [buildAuthHeaderV4_eq, halg, e]
  refine ⟨buildAuthHeaderV4_eq signature meta keys, hlit, ?_⟩
  intro E request hashedCanonReq before requestTs stringToSign hs
  exact hlit (stringToSignV4_algorithm E request hashedCanonReq before requestTs _ _ hs)

/-- Witness of `buildAuthHeaderV4_format` (C4): metadata with the algorithm set, and the
metadata that `stringToSignV4` leaves on `exampleRequest`. -/
theorem buildAuthHeaderV4_format_witness :
    buildAuthHeaderV4 "abc".toList
        { algorithm := "AWS4-HMAC-SHA256".toList, credentialScope := "scope".toList,
          signedHeaders := "host".toList, date := [], region := [], service := [] }
        exampleKeys =
      "AWS4-HMAC-SHA256 Credential=AKIDEXAMPLE/scope, SignedHeaders=host, Signature=abc".toList ∧
    buildAuthHeaderV4 "abc".toList
        { algorithm := "AWS4-HMAC-SHA256".toList, credentialScope := "scope".toList,
          signedHeaders := "host".toList, date := [], region := [], service := [] }
        exampleKeys =
      "AWS4-HMAC-SHA256 Credential=".toList ++ exampleKeys.AccessKeyID ++ "/".toList ++
        "scope".toList ++ ", SignedHeaders=".toList ++ "host".toList ++
        ", Signature=".toList ++ "abc".toList :=
  ⟨by decide,
    (buildAuthHeaderV4_format "abc".toList
      { algorithm := "AWS4-HMAC-SHA256".toList, credentialScope := "scope".toList,
        signedHeaders := "host".toList, date := [], region := [], service := [] }
      exampleKeys).2.1 rfl⟩

/-- C4, counterexample: on metadata whose algorithm field is empty, as a caller makes it
and as it is until `stringToSignV4` has run, `buildAuthHeaderV4` returns a text that
starts with ` Credential=`, not the text C4 states for every metadata. -/
theorem buildAuthHeaderV4_counterexample :
    buildAuthHeaderV4 "abc".toList freshMeta exampleKeys =
      " Credential=AKIDEXAMPLE/, SignedHeaders=, Signature=abc".toList ∧
    buildAuthHeaderV4 "abc".toList freshMeta exampleKeys ≠
      "AWS4-HMAC-SHA256 Credential=".toList ++ exampleKeys.AccessKeyID ++ "/".toList ++
        freshMeta.credentialScope ++ ", SignedHeaders=".toList ++ freshMeta.signedHeaders ++
        ", Signature=".toList ++ "abc".toList := by
  decide

/-- C5: in signed-payload mode the canonical request that is hashed ends with a line
feed and the hash of the body, and after the call the header `X-Amz-Content-Sha256` of
the request has that hash as its only value, whatever the request held before. -/
theorem signed_payload_hash (E : Env) (range : Header → List Str) (request : Request)
    (meta : metadata) (signedHeaders : List Str) :
    let r := hashedCanonicalRequestV4 E range request meta signedHeaders false
    let c := canonicalRequestV4 E range request meta signedHeaders false
    r.1 = E.hashSHA256
        (concat "\n".toList [request.Method, E.normuri request.URL.Path,
            E.normquery request.URL.Query, c.headersToSign, c.meta.signedHeaders] ++
          "\n".toList ++ E.hashSHA256 request.Body) ∧
      Header.lookup r.2.1.Header "X-Amz-Content-Sha256".toList =
        some [E.hashSHA256 request.Body] := by
  intro r c
  constructor
  · show E.hashSHA256 c.canonicalRequest = _
    rw [canonicalRequestV4_text, canonicalRequestV4_payloadHash]
    simp [concat, List.intercalate, List.intersperse]
  · show Header.lookup c.request.Header _ = _
    rw [canonicalRequestV4_header]
    unfold signedHeaderMap
    rw [lookup_store_ne _ _ _ _ (by decide)]
    simp only [Bool.false_eq_true, if_false]
    exact lookup_store_self _ _ _

/-- C6: in unsigned-payload mode the canonical request that is hashed ends, for every
request, with a line feed and the literal `UNSIGNED-PAYLOAD`; the entry
`X-Amz-Content-Sha256` of the header map is left as it was, so a request without that
header before the call is without it after the call. -/
theorem unsigned_payload_literal (E : Env) (range : Header → List Str) (request : Request)
    (meta : metadata) (signedHeaders : List Str) :
    let r := hashedCanonicalRequestV4 E range request meta signedHeaders true
    let c := canonicalRequestV4 E range request meta signedHeaders true
    r.1 = E.hashSHA256
        (concat "\n".toList [request.Method, E.normuri request.URL.Path,
            E.normquery request.URL.Query, c.headersToSign, c.meta.signedHeaders] ++
          "\n".toList ++ "UNSIGNED-PAYLOAD".toList) ∧
      c.payloadHash = "UNSIGNED-PAYLOAD".toList ∧
      Header.lookup r.2.1.Header "X-Amz-Content-Sha256".toList =
        Header.lookup request.Header "X-Amz-Content-Sha256".toList ∧
      (Header.lookup request.Header "X-Amz-Content-Sha256".toList = none →
        Header.lookup r.2.1.Header "X-Amz-Content-Sha256".toList = none) := by
  intro r c
  have hframe : Header.lookup r.2.1.Header "X-Amz-Content-Sha256".toList =
      Header.lookup request.Header "X-Amz-Content-Sha256".toList := by
    show Header.lookup c.request.Header _ = _
    rw [canonicalRequestV4_header]
    unfold signedHeaderMap
    rw [lookup_store_ne _ _ _ _ (by decide)]
    rfl
  refine ⟨?_, rfl, hframe, ?_⟩
  · show E.hashSHA256 c.canonicalRequest = _
    rw [canonicalRequestV4_text, canonicalRequestV4_payloadHash]
    simp [concat, List.intercalate, List.intersperse]
  · intro habsent
    rw [hframe, habsent]

/-- Witness of `unsigned_payload_literal` (C6): `exampleRequest`, which has no header
`X-Amz-Content-Sha256`, has none after the call; the text that is hashed is written out. -/
theorem unsigned_payload_literal_witness :
    Header.lookup exampleRequest.Header "X-Amz-Content-Sha256".toList = none ∧
    (canonicalRequestV4 showEnv Header.keys exampleRequest freshMeta [] true).canonicalRequest =
      ("GET\n/\n\nhost:examplebucket.s3.amazonaws.com\nx-amz-date:20130524T000000Z\n\n" ++
        "host;x-amz-date\nUNSIGNED-PAYLOAD").toList ∧
    Header.lookup
      (hashedCanonicalRequestV4 showEnv Header.keys exampleRequest freshMeta [] true).2.1.Header
      "X-Amz-Content-Sha256".toList = none :=
  ⟨by decide, by decide,
    (unsigned_payload_literal showEnv Header.keys exampleRequest freshMeta []).2.2.2
      (by decide)⟩

/-- C7 (as amended): for every request with ASCII header names and every allow-list, a
lower-cased name is in the
signed-header list exactly when it is the lower-cased name of a header on the request
(the map after the call) that is `Content-Md5` or `Host`, or whose lower-cased name is in
the allow-list, or whose name begins with `X-Amz-`. So a header whose lower-cased name no
other header of the map shares is signed exactly when it is `Content-Md5` or `Host`, is
allow-listed or begins with `X-Amz-`: a present `Content-Md5` header is always signed.
The headers of the map are those of the request before the call, `Host`, and in
signed-payload mode `X-Amz-Content-Sha256`. -/
theorem header_selection_rule (E : Env) (range : Header → List Str) (request : Request)
    (meta : metadata) (signedHeaders : List Str) (queryString : Bool)
    (hr : Enumerates range)
    (hascii : ∀ k ∈ Header.keys request.Header, isASCII k = true) :
    let c := canonicalRequestV4 E range request meta signedHeaders queryString
    (∀ n, n ∈ c.sortedHeaderKeys ↔
      ∃ k ∈ Header.keys c.request.Header, n = ToLower k ∧
        (k = "Content-Md5".toList ∨ k = "Host".toList ∨ ToLower k ∈ signedHeaders ∨
          HasPrefix k "X-Amz-".toList = true)) ∧
    (∀ k ∈ Header.keys c.request.Header,
      (∀ k' ∈ Header.keys c.request.Header, ToLower k' = ToLower k → k' = k) →
      (ToLower k ∈ c.sortedHeaderKeys ↔
        (k = "Content-Md5".toList ∨ k = "Host".toList ∨ ToLower k ∈ signedHeaders ∨
          HasPrefix k "X-Amz-".toList = true))) ∧
    (∀ k, k ∈ Header.keys c.request.Header ↔
      (k ∈ Header.keys request.Header ∨ k = "Host".toList ∨
        (queryString = false ∧ k = "X-Amz-Content-Sha256".toList))) := by
  intro c
  have _ := hascii
  have hH : c.request.Header = signedHeaderMap E request queryString :=
    canonicalRequestV4_header E range request meta signedHeaders queryString
  have hmem : ∀ n, n ∈ c.sortedHeaderKeys ↔
      ∃ k ∈ Header.keys c.request.Header, n = ToLower k ∧
        (k = "Content-Md5".toList ∨ k = "Host".toList ∨ ToLower k ∈ signedHeaders ∨
          HasPrefix k "X-Amz-".toList = true) := by
    intro n
    rw [hH, mem_sortedHeaderKeys E range request meta signedHeaders queryString hr n]
    constructor
    · rintro ⟨k, hk, hn, hs⟩
      exact ⟨k, hk, hn, (selected_iff _ _).1 hs⟩
    · rintro ⟨k, hk, hn, hs⟩
      exact ⟨k, hk, hn, (selected_iff _ _).2 hs⟩
  refine ⟨hmem, ?_, ?_⟩
  · intro k hk huniq
    rw [hmem]
    constructor
    · rintro ⟨k', hk', hn, hs⟩
      have : k' = k := huniq k' hk' hn.symm
      rw [this] at hs
      exact hs
    · intro hs
      exact ⟨k, hk, rfl, hs⟩
  · intro k
    rw [hH]
    exact mem_keys_signedHeaderMap E request queryString k

/-- Witness of `header_selection_rule` (C7): `contentMd5Request` with an empty
allow-list, enumerated in the order of its list. -/
theorem header_selection_rule_witness :
    Enumerates Header.keys ∧
    (∀ k ∈ Header.keys contentMd5Request.Header, isASCII k = true) ∧
    (let c := canonicalRequestV4 showEnv Header.keys contentMd5Request freshMeta [] true
    (∀ n, n ∈ c.sortedHeaderKeys ↔
      ∃ k ∈ Header.keys c.request.Header, n = ToLower k ∧
        (k = "Content-Md5".toList ∨ k = "Host".toList ∨ ToLower k ∈ ([] : List Str) ∨
          HasPrefix k "X-Amz-".toList = true)) ∧
    (∀ k ∈ Header.keys c.request.Header,
      (∀ k' ∈ Header.keys c.request.Header, ToLower k' = ToLower k → k' = k) →
      (ToLower k ∈ c.sortedHeaderKeys ↔
        (k = "Content-Md5".toList ∨ k = "Host".toList ∨ ToLower k ∈ ([] : List Str) ∨
          HasPrefix k "X-Amz-".toList = true))) ∧
    (∀ k, k ∈ Header.keys c.request.Header ↔
      (k ∈ Header.keys contentMd5Request.Header ∨ k = "Host".toList ∨
        (true = false ∧ k = "X-Amz-Content-Sha256".toList)))) :=
  ⟨fun _ => List.Perm.refl _, by decide,
    header_selection_rule showEnv Header.keys contentMd5Request freshMeta [] true
      (fun _ => List.Perm.refl _) (by decide)⟩

/-- C7, counterexample: a request with a `Content-Md5` header and an empty allow-list.
The header is not `Host`, its lower-cased name is not in the allow-list and its name does
not begin with `X-Amz-`, and `content-md5` is in the signed-header list all the same. -/
theorem header_selection_counterexample :
    (canonicalRequestV4 showEnv Header.keys contentMd5Request freshMeta [] true).sortedHeaderKeys
      = ["content-md5".toList, "host".toList] ∧
    ¬ (∀ (E : Env) (range : Header → List Str) (request : Request) (meta : metadata)
        (signedHeaders : List Str) (queryString : Bool), Enumerates range →
        (∀ k ∈ Header.keys request.Header, isASCII k = true) →
        let c := canonicalRequestV4 E range request meta signedHeaders queryString
        ∀ k ∈ Header.keys c.request.Header, k ≠ "Host".toList →
          (ToLower k ∈ c.sortedHeaderKeys ↔
            (ToLower k ∈ signedHeaders ∨ HasPrefix k "X-Amz-".toList = true))) := by
  refine ⟨by decide, ?_⟩
  intro h
  have := h showEnv Header.keys contentMd5Request freshMeta [] true
    (fun _ => List.Perm.refl _) (by decide) "Content-Md5".toList (by decide) (by decide)
  revert this
  decide

/-- C8, the code at the failing inputs: with the header keys `X-Amz-Foo` and `X-Amz-FOO`
and an empty allow-list the signed-header list holds `x-amz-foo` twice, and so does
`meta.signedHeaders`; with the keys `x-amz-foo` and `X-Amz-Foo` enumerated in this order
and `x-amz-foo` allow-listed the list holds it twice as well, the check for a name that
is on the list already being made for an allow-listed name only. -/
theorem signed_header_list_repeats_name :
    (canonicalRequestV4 showEnv Header.keys caseVariantRequest freshMeta [] true).sortedHeaderKeys
      = ["host".toList, "x-amz-foo".toList, "x-amz-foo".toList] ∧
    (hashedCanonicalRequestV4 showEnv Header.keys caseVariantRequest freshMeta [] true).2.2.signedHeaders
      = "host;x-amz-foo;x-amz-foo".toList ∧
    (canonicalRequestV4 showEnv Header.keys lowerVariantRequest freshMeta ["x-amz-foo".toList]
        true).sortedHeaderKeys
      = ["host".toList, "x-amz-foo".toList, "x-amz-foo".toList] := by
  decide

/-- C9: for every request, allow-list and signing mode, after
`hashedCanonicalRequestV4` the `Host` header of the request has the connection host
`request.Host` as its only value, and `host` is in the signed-header list, which
`meta.signedHeaders` holds joined by semicolons. -/
theorem host_header_always_signed (E : Env) (range : Header → List Str) (request : Request)
    (meta : metadata) (signedHeaders : List Str) (queryString : Bool)
    (hr : Enumerates range) :
    let r := hashedCanonicalRequestV4 E range request meta signedHeaders queryString
    let c := canonicalRequestV4 E range request meta signedHeaders queryString
    Header.lookup r.2.1.Header "Host".toList = some [request.Host] ∧
      Header.Get r.2.1.Header "Host".toList = request.Host ∧
      "host".toList ∈ c.sortedHeaderKeys ∧
      r.2.2.signedHeaders = concat ";".toList c.sortedHeaderKeys := by
  intro r c
  have hH : c.request.Header = signedHeaderMap E request queryString :=
    canonicalRequestV4_header E range request meta signedHeaders queryString
  have hl : Header.lookup c.request.Header "Host".toList = some [request.Host] := by
    rw [hH]
    exact lookup_store_self _ _ _
  refine ⟨hl, ?_, ?_, ?_⟩
  · show Header.Get c.request.Header _ = _
    have e : CanonicalMIMEHeaderKey "Host".toList = "Host".toList := by decide
    unfold Header.Get
    rw [e, hl]
  · rw [mem_sortedHeaderKeys E range request meta signedHeaders queryString hr]
    refine ⟨"Host".toList, ?_, by decide, ?_⟩
    · exact (mem_keys_store _ _ _ _).2 (Or.inr rfl)
    · exact (selected_iff _ _).2 (Or.inr (Or.inl rfl))
  · cases queryString <;> rfl

/-- Witness of `host_header_always_signed` (C9): `contentMd5Request`, which carries no
`Host` header, with an empty allow-list. -/
theorem host_header_always_signed_witness :
    Enumerates Header.keys ∧
    Header.lookup contentMd5Request.Header "Host".toList = none ∧
    (let r := hashedCanonicalRequestV4 showEnv Header.keys contentMd5Request freshMeta [] true
    let c := canonicalRequestV4 showEnv Header.keys contentMd5Request freshMeta [] true
    Header.lookup r.2.1.Header "Host".toList = some [contentMd5Request.Host] ∧
      Header.Get r.2.1.Header "Host".toList = contentMd5Request.Host ∧
      "host".toList ∈ c.sortedHeaderKeys ∧
      r.2.2.signedHeaders = concat ";".toList c.sortedHeaderKeys) :=
  ⟨fun _ => List.Perm.refl _, by decide,
    host_header_always_signed showEnv Header.keys contentMd5Request freshMeta [] true
      (fun _ => List.Perm.refl _)⟩

/-- C10, the code at the failing input: for the host `[::1]:443` the pieces between
colons are `[`, the empty string, `1]` and `443`; the second piece is not a port, the
value is left as it is, and the host line of the canonical request is `host:[::1]:443`
with the port `:443` still on it. -/
theorem host_line_keeps_port_of_ipv6_host :
    Split "[::1]:443".toList ':' = ["[".toList, [], "1]".toList, "443".toList] ∧
    hostValue "[::1]:443".toList = "[::1]:443".toList ∧
    (canonicalRequestV4 showEnv Header.keys ipv6Request freshMeta [] true).headersToSign =
      "host:[::1]:443\n".toList ∧
    (canonicalRequestV4 showEnv Header.keys ipv6Request freshMeta [] true).headersToSign ≠
      "host:[::1]\n".toList := by
  decide

/-- C11, the code at the failing input: for the host `[2001:80::1]:8080`, whose port is
8080, the second of the pieces between colons is `80`, so the value becomes the first
piece and the host line of the canonical request is `host:[2001`, not the host value
unchanged; the host `[2001:443::1]`, which has no port, is cut in the same way. -/
theorem host_line_cut_at_first_colon :
    Split "[2001:80::1]:8080".toList ':' =
      ["[2001".toList, "80".toList, [], "1]".toList, "8080".toList] ∧
    hostValue "[2001:80::1]:8080".toList = "[2001".toList ∧
    hostValue "[2001:443::1]".toList = "[2001".toList ∧
    (canonicalRequestV4 showEnv Header.keys ipv6PortRequest freshMeta [] true).headersToSign =
      "host:[2001\n".toList ∧
    (canonicalRequestV4 showEnv Header.keys ipv6PortRequest freshMeta [] true).headersToSign ≠
      "host:[2001:80::1]:8080\n".toList := by
  decide

/-- C18 (as amended): `stringToSignV4` returns a string to sign exactly when the
timestamp has at least 8 bytes; on a shorter timestamp, the empty one included, the slice
`timestamp[:8]` of `tsDateV4` is out of range and the call does not return. -/
theorem stringToSignV4_returns_iff (E : Env) (request : Request) (h : Str) (meta : metadata)
    (ts : Str) :
    (stringToSignV4 E request h meta ts).isSome = true ↔ 8 ≤ ts.length := by
  by_cases hts : 8 ≤ ts.length
  · simp [stringToSignV4, tsDateV4, hts]
  · simp [stringToSignV4, tsDateV4, hts]

/-- C18, counterexample: on the empty timestamp and on the timestamp `2013` the slice
`timestamp[:8]` is out of range, `tsDateV4` and `stringToSignV4` do not return; so
`stringToSignV4` does not return for every timestamp. -/
theorem stringToSignV4_short_timestamp_counterexample :
    tsDateV4 [] = none ∧
    stringToSignV4 showEnv exampleRequest "HASH".toList freshMeta [] = none ∧
    stringToSignV4 showEnv exampleRequest "HASH".toList freshMeta "2013".toList = none ∧
    ¬ (∀ (E : Env) (request : Request) (h : Str) (meta : metadata) (ts : Str),
        (stringToSignV4 E request h meta ts).isSome = true) := by
  refine ⟨by decide, by decide, by decide, ?_⟩
  intro hall
  have := hall showEnv exampleRequest "HASH".toList freshMeta []
  revert this
  decide

/-- C13 (as amended): `prepareRequestV4` does not overwrite a `Content-Type` header, or an
`X-Amz-Date` header, whose first value is not the empty string: the list of values of that
header after the call is the list before the call. A header whose first value is the
empty string, or that has no value, is treated as an absent one: after the call its only
value is the default, the default content type or the timestamp. -/
theorem prepareRequestV4_keeps_supplied (t : Str) (dateFirst : Bool) (request : Request) :
    let r := prepareRequestV4 t dateFirst request
    (Header.Get request.Header "Content-Type".toList ≠ [] →
      Header.lookup r.Header "Content-Type".toList =
        Header.lookup request.Header "Content-Type".toList) ∧
    (Header.Get request.Header "X-Amz-Date".toList ≠ [] →
      Header.lookup r.Header "X-Amz-Date".toList =
        Header.lookup request.Header "X-Amz-Date".toList) ∧
    (Header.Get request.Header "Content-Type".toList = [] →
      Header.lookup r.Header "Content-Type".toList =
        some ["application/x-www-form-urlencoded; charset=utf-8".toList]) ∧
    (Header.Get request.Header "X-Amz-Date".toList = [] →
      Header.lookup r.Header "X-Amz-Date".toList = some [t]) ∧
    (∀ values, Header.lookup request.Header "Content-Type".toList = some ([] :: values) →
      Header.Get request.Header "Content-Type".toList = []) ∧
    (Header.lookup request.Header "Content-Type".toList = some [] →
      Header.Get request.Header "Content-Type".toList = []) ∧
    (∀ values, Header.lookup request.Header "X-Amz-Date".toList = some ([] :: values) →
      Header.Get request.Header "X-Amz-Date".toList = []) ∧
    (Header.lookup request.Header "X-Amz-Date".toList = some [] →
      Header.Get request.Header "X-Amz-Date".toList = []) := by
  intro r
  have ne12 : "Content-Type".toList ≠ "X-Amz-Date".toList := by decide
  have c1 : CanonicalMIMEHeaderKey "Content-Type".toList = "Content-Type".toList := by decide
  have c2 : CanonicalMIMEHeaderKey "X-Amz-Date".toList = "X-Amz-Date".toList := by decide
  refine ⟨?_, ?_, ?_, ?_, ?_, ?_, ?_, ?_⟩
  · intro hg
    show Header.lookup (prepareRequestV4 t dateFirst request).Header _ = _
    rw [prepareRequestV4_lookup]
    have h1 : ¬ ("Content-Type".toList = "Content-Type".toList ∧
        Header.Get request.Header "Content-Type".toList = []) := fun h => hg h.2
    have h2 : ¬ ("Content-Type".toList = "X-Amz-Date".toList ∧
        Header.Get request.Header "X-Amz-Date".toList = []) := fun h => ne12 h.1
    rw [if_neg h1, if_neg h2]
  · intro hg
    show Header.lookup (prepareRequestV4 t dateFirst request).Header _ = _
    rw [prepareRequestV4_lookup]
    have h1 : ¬ ("X-Amz-Date".toList = "Content-Type".toList ∧
        Header.Get request.Header "Content-Type".toList = []) := fun h => ne12 h.1.symm
    have h2 : ¬ ("X-Amz-Date".toList = "X-Amz-Date".toList ∧
        Header.Get request.Header "X-Amz-Date".toList = []) := fun h => hg h.2
    rw [if_neg h1, if_neg h2]
  · intro hg
    show Header.lookup (prepareRequestV4 t dateFirst request).Header _ = _
    rw [prepareRequestV4_lookup, if_pos ⟨rfl, hg⟩]
  · intro hg
    show Header.lookup (prepareRequestV4 t dateFirst request).Header _ = _
    have h1 : ¬ ("X-Amz-Date".toList = "Content-Type".toList ∧
        Header.Get request.Header "Content-Type".toList = []) := fun h => ne12 h.1.symm
    rw [prepareRequestV4_lookup, if_neg h1, if_pos ⟨rfl, hg⟩]
  · intro values hl
    unfold Header.Get
    rw [c1, hl]
  · intro hl
    unfold Header.Get
    rw [c1, hl]
  · intro values hl
    unfold Header.Get
    rw [c2, hl]
  · intro hl
    unfold Header.Get
    rw [c2, hl]

/-- Witness of `prepareRequestV4_keeps_supplied` (C13): `jsonRequest` keeps its
`Content-Type` header `application/json`, and `emptyContentTypeRequest`, whose
`Content-Type` header has the empty string as first value, gets the default. -/
theorem prepareRequestV4_keeps_supplied_witness :
    Header.Get jsonRequest.Header "Content-Type".toList ≠ [] ∧
    Header.lookup (prepareRequestV4 "20130524T000000Z".toList false jsonRequest).Header
        "Content-Type".toList = some ["application/json".toList] ∧
    Header.lookup (prepareRequestV4 "20130524T000000Z".toList false jsonRequest).Header
        "Content-Type".toList = Header.lookup jsonRequest.Header "Content-Type".toList ∧
    Header.Get emptyContentTypeRequest.Header "Content-Type".toList = [] ∧
    Header.lookup (prepareRequestV4 "20130524T000000Z".toList false
        emptyContentTypeRequest).Header "Content-Type".toList =
      some ["application/x-www-form-urlencoded; charset=utf-8".toList] :=
  ⟨by decide, by decide,
    (prepareRequestV4_keeps_supplied "20130524T000000Z".toList false jsonRequest).1
      (by decide),
    by decide,
    (prepareRequestV4_keeps_supplied "20130524T000000Z".toList false
      emptyContentTypeRequest).2.2.1 (by decide)⟩

/-- C13, counterexample: a request on which the `Content-Type` header is present with the
values `""` and `text/plain`. The first value is the empty string, so `Header.Get` gives
`""` and `prepareRequestV4` sets the header: after the call its only value is the default
content type. -/
theorem prepareRequestV4_overwrites_empty_counterexample :
    Header.lookup emptyContentTypeRequest.Header "Content-Type".toList =
      some [[], "text/plain".toList] ∧
    Header.lookup (prepareRequestV4 "20130524T000000Z".toList false
        emptyContentTypeRequest).Header "Content-Type".toList =
      some ["application/x-www-form-urlencoded; charset=utf-8".toList] ∧
    ¬ (∀ (t : Str) (dateFirst : Bool) (request : Request) (values : List Str),
        Header.lookup request.Header "Content-Type".toList = some values →
        Header.lookup (prepareRequestV4 t dateFirst request).Header "Content-Type".toList =
          some values) := by
  refine ⟨by decide, by decide, ?_⟩
  intro hall
  have := hall "20130524T000000Z".toList false emptyContentTypeRequest _
    (by decide : Header.lookup emptyContentTypeRequest.Header "Content-Type".toList =
      some [[], "text/plain".toList])
  revert this
  decide

/-- C14: for every request and timestamp `t`, after `prepareRequestV4` a `Content-Type`
header that was absent has the default content type as its only value, an `X-Amz-Date`
header that was absent has `t` as its only value, an empty path has become `/` and a path
that was not empty is as before, and the method, the host, the query, the body and every
header other than these two are as before. -/
theorem prepareRequestV4_defaults (t : Str) (dateFirst : Bool) (request : Request) :
    let r := prepareRequestV4 t dateFirst request
    (Header.lookup request.Header "Content-Type".toList = none →
      Header.lookup r.Header "Content-Type".toList =
        some ["application/x-www-form-urlencoded; charset=utf-8".toList]) ∧
    (Header.lookup request.Header "X-Amz-Date".toList = none →
      Header.lookup r.Header "X-Amz-Date".toList = some [t]) ∧
    (request.URL.Path = [] → r.URL.Path = "/".toList) ∧
    (request.URL.Path ≠ [] → r.URL.Path = request.URL.Path) ∧
    r.Method = request.Method ∧ r.Host = request.Host ∧
    r.URL.Query = request.URL.Query ∧ r.Body = request.Body ∧
    (∀ k, k ≠ "Content-Type".toList → k ≠ "X-Amz-Date".toList →
      Header.lookup r.Header k = Header.lookup request.Header k) := by
  intro r
  have c1 : CanonicalMIMEHeaderKey "Content-Type".toList = "Content-Type".toList := by decide
  have c2 : CanonicalMIMEHeaderKey "X-Amz-Date".toList = "X-Amz-Date".toList := by decide
  have ne12 : "Content-Type".toList ≠ "X-Amz-Date".toList := by decide
  obtain ⟨fM, fB, fH, fQ, fP⟩ := prepareRequestV4_frame t dateFirst request
  refine ⟨?_, ?_, ?_, ?_, fM, fH, fQ, fB, ?_⟩
  · intro hn
    show Header.lookup (prepareRequestV4 t dateFirst request).Header _ = _
    rw [prepareRequestV4_lookup, if_pos ⟨rfl, Get_of_lookup_none _ _ c1 hn⟩]
  · intro hn
    show Header.lookup (prepareRequestV4 t dateFirst request).Header _ = _
    have h1 : ¬ ("X-Amz-Date".toList = "Content-Type".toList ∧
        Header.Get request.Header "Content-Type".toList = []) := fun h => ne12 h.1.symm
    rw [prepareRequestV4_lookup, if_neg h1, if_pos ⟨rfl, Get_of_lookup_none _ _ c2 hn⟩]
  · intro hp
    show (prepareRequestV4 t dateFirst request).URL.Path = _
    rw [fP, if_pos hp]
  · intro hp
    show (prepareRequestV4 t dateFirst request).URL.Path = _
    rw [fP, if_neg hp]
  · intro k hk1 hk2
    show Header.lookup (prepareRequestV4 t dateFirst request).Header _ = _
    have h1 : ¬ (k = "Content-Type".toList ∧
        Header.Get request.Header "Content-Type".toList = []) := fun h => hk1 h.1
    have h2 : ¬ (k = "X-Amz-Date".toList ∧
        Header.Get request.Header "X-Amz-Date".toList = []) := fun h => hk2 h.1
    rw [prepareRequestV4_lookup, if_neg h1, if_neg h2]

/-- Witness of `prepareRequestV4_defaults` (C14): `contentMd5Request`, which has neither
header, gets both defaults and keeps its `Content-Md5` header and its path. -/
theorem prepareRequestV4_defaults_witness :
    Header.lookup contentMd5Request.Header "Content-Type".toList = none ∧
    Header.lookup contentMd5Request.Header "X-Amz-Date".toList = none ∧
    prepareRequestV4 "20130524T000000Z".toList true contentMd5Request =
      { contentMd5Request with
        Header := [("Content-Md5".toList, ["1B2M2Y8AsgTpgAmY7PhCfg==".toList]),
          ("X-Amz-Date".toList, ["20130524T000000Z".toList]),
          ("Content-Type".toList, ["application/x-www-form-urlencoded; charset=utf-8".toList])] } ∧
    Header.lookup (prepareRequestV4 "20130524T000000Z".toList true contentMd5Request).Header
        "Content-Type".toList =
      some ["application/x-www-form-urlencoded; charset=utf-8".toList] ∧
    Header.lookup (prepareRequestV4 "20130524T000000Z".toList true contentMd5Request).Header
        "X-Amz-Date".toList = some ["20130524T000000Z".toList] :=
  ⟨by decide, by decide, by decide,
    (prepareRequestV4_defaults "20130524T000000Z".toList true contentMd5Request).1 (by decide),
    (prepareRequestV4_defaults "20130524T000000Z".toList true contentMd5Request).2.1
      (by decide)⟩

/-- C15, the code at the failing input: the header keys `x-amz-foo` and `X-Amz-Foo` with
`x-amz-foo` allow-listed. The first call, enumerating the map in the order of its list,
signs `host;x-amz-foo;x-amz-foo`; a second call with the same arguments on the request
as the first call left it, enumerating the same map in the opposite order, signs
`host;x-amz-foo` and returns another hash. -/
theorem second_call_changes_hash :
    firstCall.2.2.signedHeaders = "host;x-amz-foo;x-amz-foo".toList ∧
      secondCall.2.2.signedHeaders = "host;x-amz-foo".toList ∧
      secondCall.2.1.Header = firstCall.2.1.Header ∧
      secondCall.1 ≠ firstCall.1 := by
  decide

/-- C19, the code at the failing inputs: for the header keys `x-amz-foo` and `X-Amz-Foo`
with `x-amz-foo` allow-listed, and for the header key `host` beside the `Host` that the
function sets with `host` allow-listed, the two orders of enumeration give different
signed-header lists, different `meta.signedHeaders` and different hashes. -/
theorem enumeration_order_changes_result :
    (canonicalRequestV4 showEnv Header.keys lowerVariantRequest freshMeta ["x-amz-foo".toList]
        true).sortedHeaderKeys = ["host".toList, "x-amz-foo".toList, "x-amz-foo".toList] ∧
    (canonicalRequestV4 showEnv reverseOrder lowerVariantRequest freshMeta ["x-amz-foo".toList]
        true).sortedHeaderKeys = ["host".toList, "x-amz-foo".toList] ∧
    (hashedCanonicalRequestV4 showEnv Header.keys lowerVariantRequest freshMeta
        ["x-amz-foo".toList] true).1 ≠
      (hashedCanonicalRequestV4 showEnv reverseOrder lowerVariantRequest freshMeta
        ["x-amz-foo".toList] true).1 ∧
    (hashedCanonicalRequestV4 showEnv Header.keys hostKeyRequest freshMeta ["host".toList]
        true).2.2.signedHeaders = "host;host".toList ∧
    (hashedCanonicalRequestV4 showEnv reverseOrder hostKeyRequest freshMeta ["host".toList]
        true).2.2.signedHeaders = "host".toList ∧
    (hashedCanonicalRequestV4 showEnv Header.keys hostKeyRequest freshMeta ["host".toList]
        true).1 ≠
      (hashedCanonicalRequestV4 showEnv reverseOrder hostKeyRequest freshMeta ["host".toList]
        true).1 := by
  decide

/-- C20 (as amended): for every allow-list and every request whose header names are
ASCII and, as the function leaves them (the names it was called with, `Host`, and in signed-payload mode
`X-Amz-Content-Sha256`), have pairwise distinct lower-cased forms, the signed-header
list of `hashedCanonicalRequestV4` is the sorted list of the lower-cased names of the
headers that are `Content-Md5` or `Host`, are allow-listed or begin with `X-Amz-`; and in
every round of the loop the name of the key is not on the list already, so the check
for that changes nothing. -/
theorem selection_is_single_pass (E : Env) (range : Header → List Str) (request : Request)
    (meta : metadata) (signedHeaders : List Str) (queryString : Bool)
    (hr : Enumerates range)
    (hascii : ∀ k ∈ Header.keys request.Header, isASCII k = true)
    (hd : ((Header.keys (hashedCanonicalRequestV4 E range request meta signedHeaders
      queryString).2.1.Header).map ToLower).Nodup) :
    let c := canonicalRequestV4 E range request meta signedHeaders queryString
    c.sortedHeaderKeys =
        sortStrings (((Header.keys c.request.Header).filter (fun k =>
          k = "Content-Md5".toList || k = "Host".toList || signedHeaders.contains (ToLower k)
            || HasPrefix k "X-Amz-".toList)).map ToLower) ∧
      c.sortedHeaderKeys = selectHeadersSet signedHeaders (Header.keys c.request.Header) ∧
      (∀ before key after, range c.request.Header = before ++ key :: after →
        arleadyOnList (selectHeaders signedHeaders before) (ToLower key) = false) := by
  intro c
  have _ := hascii
  have hH : c.request.Header = signedHeaderMap E request queryString :=
    canonicalRequestV4_header E range request meta signedHeaders queryString
  have hd' : ((Header.keys (signedHeaderMap E request queryString)).map ToLower).Nodup := by
    have : (hashedCanonicalRequestV4 E range request meta signedHeaders queryString).2.1.Header
        = signedHeaderMap E request queryString := hH
    rw [this] at hd
    exact hd
  have hset : c.sortedHeaderKeys =
      selectHeadersSet signedHeaders (Header.keys c.request.Header) := by
    rw [hH]
    show (canonicalRequestV4 E range request meta signedHeaders queryString).sortedHeaderKeys = _
    rw [canonicalRequestV4_keys]
    exact sortStrings_selectHeaders_of_nodup _ _ _ hr hd'
  refine ⟨hset, hset, ?_⟩
  intro before key after hsplit
  rw [hH] at hsplit
  have hnd : ((range (signedHeaderMap E request queryString)).map ToLower).Nodup :=
    ((hr _).map ToLower).nodup_iff.2 hd'
  rw [hsplit, List.map_append, List.map_cons] at hnd
  have hnot : ToLower key ∉ before.map ToLower := by
    intro hm
    exact (List.nodup_append.1 hnd).2.2 hm (List.mem_cons_self _ _)
  cases hb : arleadyOnList (selectHeaders signedHeaders before) (ToLower key) with
  | false => rfl
  | true =>
    have hmem := (arleadyOnList_iff _ _).1 hb
    obtain ⟨k, hk, hkn, _⟩ := (mem_selectHeaders _ _ _).1 hmem
    exact absurd (hkn ▸ List.mem_map_of_mem ToLower hk) hnot

/-- Witness of `selection_is_single_pass` (C20): `exampleRequest` in signed-payload mode
with `content-type` allow-listed, enumerated in the opposite order of its list. -/
theorem selection_is_single_pass_witness :
    Enumerates reverseOrder ∧
    (∀ k ∈ Header.keys exampleRequest.Header, isASCII k = true) ∧
    ((Header.keys (hashedCanonicalRequestV4 showEnv reverseOrder exampleRequest freshMeta
      ["content-type".toList] false).2.1.Header).map ToLower).Nodup ∧
    (canonicalRequestV4 showEnv reverseOrder exampleRequest freshMeta ["content-type".toList]
        false).sortedHeaderKeys =
      ["content-type".toList, "host".toList, "x-amz-content-sha256".toList,
        "x-amz-date".toList] ∧
    (canonicalRequestV4 showEnv reverseOrder exampleRequest freshMeta ["content-type".toList]
        false).sortedHeaderKeys =
      selectHeadersSet ["content-type".toList]
        (Header.keys (canonicalRequestV4 showEnv reverseOrder exampleRequest freshMeta
          ["content-type".toList] false).request.Header) :=
  ⟨enumerates_reverseOrder, by decide, by decide, by decide,
    (selection_is_single_pass showEnv reverseOrder exampleRequest freshMeta
      ["content-type".toList] false enumerates_reverseOrder (by decide) (by decide)).2.1⟩

/-- C20, counterexample: a request whose only header key is `host`, so that its header
names have pairwise distinct lower-cased forms, with `host` allow-listed. The function
sets `Host`; enumerating `Host` before `host`, the check finds `host` on the list
already and the signed-header list is `host`, while the headers that the rule includes
are `host` and `Host`, with the sorted lower-cased names `host`, `host`. Enumerating
`host` before `Host` the signed-header list is `host`, `host`: the two orders differ, so
no list that is read off the set of headers is the result of both. -/
theorem selection_single_pass_counterexample :
    ((Header.keys hostKeyRequest.Header).map ToLower).Nodup ∧
    (canonicalRequestV4 showEnv reverseOrder hostKeyRequest freshMeta ["host".toList]
        true).sortedHeaderKeys = ["host".toList] ∧
    selectHeadersSet ["host".toList]
        (Header.keys (canonicalRequestV4 showEnv reverseOrder hostKeyRequest freshMeta
          ["host".toList] true).request.Header) = ["host".toList, "host".toList] ∧
    arleadyOnList (selectHeaders ["host".toList] ["Host".toList]) (ToLower "host".toList) = true ∧
    (canonicalRequestV4 showEnv Header.keys hostKeyRequest freshMeta ["host".toList]
        true).sortedHeaderKeys = ["host".toList, "host".toList] ∧
    ¬ (∀ (E : Env) (range : Header → List Str) (request : Request) (meta : metadata)
        (signedHeaders : List Str) (queryString : Bool), Enumerates range →
        (∀ k ∈ Header.keys request.Header, isASCII k = true) →
        ((Header.keys request.Header).map ToLower).Nodup →
        let c := canonicalRequestV4 E range request meta signedHeaders queryString
        c.sortedHeaderKeys = selectHeadersSet signedHeaders (Header.keys c.request.Header)) := by
  refine ⟨by decide, by decide, by decide, by decide, by decide, ?_⟩
  intro hall
  have := hall showEnv reverseOrder hostKeyRequest freshMeta ["host".toList] true
    enumerates_reverseOrder (by decide) (by decide)
  revert this
  decide

/-- C16: for every request, allow-list, metadata (the fresh one included), credentials,
signature and timestamp of at least 8 bytes, after `hashedCanonicalRequestV4` and then
`stringToSignV4` on the metadata the first left, the text of `buildAuthHeaderV4` is
`AWS4-HMAC-SHA256 Credential=`, the access key id, a slash, the credential scope,
`, SignedHeaders=`, the signed headers, `, Signature=` and the signature, where the
signed headers are the fifth field of the canonical request that was hashed and the
credential scope is the third field of the string to sign. -/
theorem signing_pass_invariant (E : Env) (range : Header → List Str) (request : Request)
    (meta : metadata) (signedHeaders : List Str) (queryString : Bool) (keys : Credentials)
    (signature ts : Str) (hts : 8 ≤ ts.length) :
    let r := hashedCanonicalRequestV4 E range request meta signedHeaders queryString
    let c := canonicalRequestV4 E range request meta signedHeaders queryString
    ∃ stringToSign meta' scope,
      stringToSignV4 E r.2.1 r.1 r.2.2 ts = some (stringToSign, meta') ∧
      r.1 = E.hashSHA256 c.canonicalRequest ∧
      c.canonicalRequest = request.Method ++ "\n".toList ++ E.normuri request.URL.Path ++
        "\n".toList ++ E.normquery request.URL.Query ++ "\n".toList ++ c.headersToSign ++
        "\n".toList ++ concat ";".toList c.sortedHeaderKeys ++ "\n".toList ++ c.payloadHash ∧
      stringToSign = "AWS4-HMAC-SHA256".toList ++ "\n".toList ++ ts ++ "\n".toList ++ scope ++
        "\n".toList ++ r.1 ∧
      buildAuthHeaderV4 signature meta' keys =
        "AWS4-HMAC-SHA256 Credential=".toList ++ keys.AccessKeyID ++ "/".toList ++ scope ++
          ", SignedHeaders=".toList ++ concat ";".toList c.sortedHeaderKeys ++
          ", Signature=".toList ++ signature := by
  intro r c
  have hs := stringToSignV4_eq E r.2.1 r.1 r.2.2 ts hts
  have halg : (scopedMeta E r.2.1 r.2.2 ts).algorithm = "AWS4-HMAC-SHA256".toList := rfl
  have hsh : (scopedMeta E r.2.1 r.2.2 ts).signedHeaders = r.2.2.signedHeaders := rfl
  have hS : r.2.2.signedHeaders = concat ";".toList c.sortedHeaderKeys := by
    show c.meta.signedHeaders = _
    cases queryString <;> rfl
  refine ⟨_, scopedMeta E r.2.1 r.2.2 ts, (scopedMeta E r.2.1 r.2.2 ts).credentialScope, hs,
    rfl, ?_, concat4 _ _ _ _ _, ?_⟩
  · have hT := canonicalRequestV4_text E range request meta signedHeaders queryString
    have hS' : c.meta.signedHeaders = concat ";".toList c.sortedHeaderKeys := hS
    show c.canonicalRequest = _
    rw [hT, concat6, hS']
  · have e : "AWS4-HMAC-SHA256 Credential=".toList =
        "AWS4-HMAC-SHA256".toList ++ " Credential=".toList := by decide
    rw [buildAuthHeaderV4_eq, halg, hsh, hS, e]

/-- Witness of `signing_pass_invariant` (C16): the signing pass on `exampleRequest` with
fresh metadata and the timestamp `20130524T000000Z`, with the texts written out. -/
theorem signing_pass_invariant_witness :
    8 ≤ "20130524T000000Z".toList.length ∧
    (canonicalRequestV4 showEnv Header.keys exampleRequest freshMeta [] true).canonicalRequest =
      ("GET\n/\n\nhost:examplebucket.s3.amazonaws.com\nx-amz-date:20130524T000000Z\n\n" ++
        "host;x-amz-date\nUNSIGNED-PAYLOAD").toList ∧
    (let r := hashedCanonicalRequestV4 showEnv Header.keys exampleRequest freshMeta [] true
    let c := canonicalRequestV4 showEnv Header.keys exampleRequest freshMeta [] true
    ∃ stringToSign meta' scope,
      stringToSignV4 showEnv r.2.1 r.1 r.2.2 "20130524T000000Z".toList =
        some (stringToSign, meta') ∧
      r.1 = showEnv.hashSHA256 c.canonicalRequest ∧
      c.canonicalRequest = exampleRequest.Method ++ "\n".toList ++
        showEnv.normuri exampleRequest.URL.Path ++
        "\n".toList ++ showEnv.normquery exampleRequest.URL.Query ++ "\n".toList ++
        c.headersToSign ++
        "\n".toList ++ concat ";".toList c.sortedHeaderKeys ++ "\n".toList ++ c.payloadHash ∧
      stringToSign = "AWS4-HMAC-SHA256".toList ++ "\n".toList ++ "20130524T000000Z".toList ++
        "\n".toList ++ scope ++ "\n".toList ++ r.1 ∧
      buildAuthHeaderV4 "abc".toList meta' exampleKeys =
        "AWS4-HMAC-SHA256 Credential=".toList ++ exampleKeys.AccessKeyID ++ "/".toList ++
          scope ++ ", SignedHeaders=".toList ++ concat ";".toList c.sortedHeaderKeys ++
          ", Signature=".toList ++ "abc".toList) :=
  ⟨by decide, by decide,
    signing_pass_invariant showEnv Header.keys exampleRequest freshMeta [] true exampleKeys
      "abc".toList "20130524T000000Z".toList (by decide)⟩

/-- C17: `signatureV4` returns the hexadecimal encoding of the MAC
`hmacSHA256(signingKey, stringToSign)`, a sequence of bytes: every character of the
result is one of `0123456789abcdef`, the result has twice as many characters as the MAC
has bytes, and `hex.DecodeString` of the result is the MAC. -/
theorem signatureV4_hex (E : Env) (signingKey stringToSign : Str)
    (hbytes : ∀ b ∈ E.hmacSHA256 signingKey stringToSign, b.toNat < 256) :
    signatureV4 E signingKey stringToSign =
        EncodeToString (E.hmacSHA256 signingKey stringToSign) ∧
      (∀ c ∈ signatureV4 E signingKey stringToSign, c ∈ "0123456789abcdef".toList) ∧
      (signatureV4 E signingKey stringToSign).length =
        2 * (E.hmacSHA256 signingKey stringToSign).length ∧
      DecodeString (signatureV4 E signingKey stringToSign) =
        some (E.hmacSHA256 signingKey stringToSign) :=
  ⟨rfl, EncodeToString_digits _, EncodeToString_length _,
    DecodeString_EncodeToString _ hbytes⟩

/-- Witness of `signatureV4_hex` (C17): the MAC `hmac(key,text)` of `showEnv`, ten bytes
of ASCII, with its encoding written out. -/
theorem signatureV4_hex_witness :
    (∀ b ∈ showEnv.hmacSHA256 "key".toList "text".toList, b.toNat < 256) ∧
    signatureV4 showEnv "key".toList "text".toList = "686d6163286b65792c7465787429".toList ∧
    DecodeString (signatureV4 showEnv "key".toList "text".toList) =
      some (showEnv.hmacSHA256 "key".toList "text".toList) :=
  ⟨by decide, by decide,
    (signatureV4_hex showEnv "key".toList "text".toList (by decide)).2.2.2⟩

end AwsAuth
